import Mathlib

/-!
# javago: class-file decoder and bytecode interpreter

A shallow embedding of `src/vm/*.go`.

Conventions of the embedding.

* A Go `byte` is a natural number below 256, a `uint16` one below `2^16`, a
  `uint32` one below `2^32`; byte slices, strings (Go strings are byte
  sequences) and the operand stack are lists.  The operand stack is a Go
  slice, so its top is the LAST element of the list.
* A Go `panic`, explicit or raised by the runtime, is an `Except.error`
  carrying a `Fault`.
* Back pointers (`Method.parent`, `Constant.parent`, `ClassFile.classLoader`)
  are passed as explicit arguments: the class that owns a constant or a
  method, and the loader whose map the classes share.
* `binary.Read` on a `bytes.Buffer` whose remaining bytes are fewer than the
  value needs consumes what is left, reports an error and leaves the
  destination untouched; the source never looks at that error.
-/

namespace Javago

/-- Ways in which the Go program stops with a panic.  `outOfFuel` is not a
panic: it marks a run of the model that was cut short by its step budget. -/
inductive Fault where
  | indexOutOfRange
  | nilDereference
  | reflectUnexportedField
  | notClassInfo
  | notUtf8
  | notMethodRef
  | notNameAndType
  | attributeNotFound
  | notCodeAttribute
  | unknownConstantTag
  | unknownMagic
  | classNotLoaded
  | invalidDescriptor
  | unimplementedArgSymbol
  | unimplementedReturnSymbol
  | unimplementedInstruction (op : Nat)
  | outOfFuel
  deriving DecidableEq, Repr

deriving instance DecidableEq for Except

/-- Go strings, as their bytes. -/
abbrev GoString := List Nat

/-- The struct `Constant` (without its parent pointer). -/
structure Constant where
  tag : Nat
  data : List Nat
  deriving DecidableEq, Repr

/-- The struct `Attribute` (without its parent pointer). -/
structure Attribute where
  attributeNameIndex : Nat
  data : List Nat
  deriving DecidableEq, Repr

/-- The struct `Field`. -/
structure Field where
  accessFlag : Nat
  nameIndex : Nat
  descriptorIndex : Nat
  attributes : List Attribute
  deriving DecidableEq, Repr

/-- The struct `Method`. -/
structure Method where
  accessFlag : Nat
  nameIndex : Nat
  descriptorIndex : Nat
  attributes : List Attribute
  deriving DecidableEq, Repr

/-- The struct `ExceptionTable`. -/
structure ExceptionTable where
  startPc : Nat
  endPc : Nat
  handlerPc : Nat
  catchType : Nat
  deriving DecidableEq, Repr

/-- The struct `CodeAttribute`. -/
structure CodeAttribute where
  maxStack : Nat
  maxLocals : Nat
  code : List Nat
  exceptionTables : List ExceptionTable
  attributes : List Attribute
  deriving DecidableEq, Repr

/-- The struct `ClassFile` (without its loader pointer). -/
structure ClassFile where
  magic : Nat
  minorVersion : Nat
  majorVersion : Nat
  constantPool : List Constant
  accessFlag : Nat
  thisClass : Nat
  superClass : Nat
  interfaces : List Nat
  fields : List Field
  methods : List Method
  attributes : List Attribute
  deriving DecidableEq, Repr

/-- The struct `ClassLoader`: the map `loadedClasses`, as an association list
in which the first binding of a key is the current one. -/
structure ClassLoader where
  loadedClasses : List (GoString × ClassFile)
  deriving DecidableEq, Repr

/-- The struct `Frame`. -/
structure Frame where
  pc : Nat
  stack : List Nat
  locals : List Nat
  returnValue : Nat
  deriving DecidableEq, Repr

/-! ## Go runtime and library primitives -/

/-- Indexing `xs[i]`, which panics out of range. -/
def index {α : Type} (xs : List α) (i : Nat) : Except Fault α :=
  match xs.get? i with
  | some x => .ok x
  | none => .error .indexOutOfRange

/-- Subtraction of `uint16` values: `idx - 1` wraps around at zero. -/
def dec16 (idx : Nat) : Nat := (idx + 65535) % 65536

/-- Subtraction of `uint32` values, wrapping around. -/
def sub32 (a b : Nat) : Nat := (a % 4294967296 + (4294967296 - b % 4294967296)) % 4294967296

/-- Multiplication of `uint32` values, wrapping around. -/
def mul32 (a b : Nat) : Nat := (a * b) % 4294967296

/-- The call `binary.BigEndian.Uint16(b)`, which panics when `b` has fewer
than two bytes. -/
def Uint16 (b : List Nat) : Except Fault Nat :=
  match b with
  | hi :: lo :: _ => .ok (hi * 256 + lo)
  | _ => .error .indexOutOfRange

/-- The call `binary.Read(buffer, binary.BigEndian, &x)` for a one-byte `x`
that was zero: the value read and the buffer left. -/
def readU8 (buf : List Nat) : Nat × List Nat :=
  match buf with
  | b :: rest => (b, rest)
  | [] => (0, [])

/-- The same for a `uint16` destination that was zero. -/
def readU16 (buf : List Nat) : Nat × List Nat :=
  match buf with
  | b0 :: b1 :: rest => (b0 * 256 + b1, rest)
  | _ => (0, [])

/-- The same for a `uint32` destination that was zero. -/
def readU32 (buf : List Nat) : Nat × List Nat :=
  match buf with
  | b0 :: b1 :: b2 :: b3 :: rest => (((b0 * 256 + b1) * 256 + b2) * 256 + b3, rest)
  | _ => (0, [])

/-- The same for a destination `make([]byte, n)`. -/
def readBytes (n : Nat) (buf : List Nat) : List Nat × List Nat :=
  if n ≤ buf.length then (buf.take n, buf.drop n) else (List.replicate n 0, [])

/-- Big-endian decoding of consecutive `uint16` values. -/
def decodeU16s : List Nat → List Nat
  | b0 :: b1 :: rest => (b0 * 256 + b1) :: decodeU16s rest
  | _ => []

/-- The same for a destination `make([]uint16, n)`. -/
def readU16s (n : Nat) (buf : List Nat) : List Nat × List Nat :=
  if 2 * n ≤ buf.length then (decodeU16s (buf.take (2 * n)), buf.drop (2 * n))
  else (List.replicate n 0, [])

/-- The same for a destination `make([]ExceptionTable, n)`.  The fields of
`ExceptionTable` are unexported, so once the bytes are there the reflective
decoder of `encoding/binary` panics on the first field it sets; a short read
returns before decoding and leaves the zero rows. -/
def readExceptionTables (n : Nat) (buf : List Nat) :
    Except Fault (List ExceptionTable × List Nat) :=
  if n = 0 then .ok ([], buf)
  else if 8 * n ≤ buf.length then .error .reflectUnexportedField
  else .ok (List.replicate n ⟨0, 0, 0, 0⟩, [])

/-! ## classparser.go -/

/-- The method `ClassFile.getConstant`: `cf.constantPool[idx - 1]`. -/
def ClassFile.getConstant (cf : ClassFile) (idx : Nat) : Except Fault Constant :=
  index cf.constantPool (dec16 idx)

/-- The method `Constant.getString`. -/
def Constant.getString (c : Constant) : Except Fault GoString :=
  if c.tag ≠ 1 then .error .notUtf8 else .ok c.data

/-- The method `Constant.getClassName`; `parent` is the class `c.parent`. -/
def Constant.getClassName (parent : ClassFile) (c : Constant) : Except Fault GoString :=
  if c.tag ≠ 7 then .error .notClassInfo
  else do
    let i ← Uint16 c.data
    let e ← parent.getConstant i
    e.getString

/-- The method `Constant.getNameAndType`. -/
def Constant.getNameAndType (parent : ClassFile) (c : Constant) :
    Except Fault (GoString × GoString) :=
  if c.tag ≠ 12 then .error .notNameAndType
  else do
    let i ← Uint16 c.data
    let e ← parent.getConstant i
    let n ← e.getString
    if c.data.length < 2 then .error .indexOutOfRange
    else do
      let j ← Uint16 (c.data.drop 2)
      let e2 ← parent.getConstant j
      let t ← e2.getString
      pure (n, t)

/-- The method `Constant.getMethodRef`: class, name, type. -/
def Constant.getMethodRef (parent : ClassFile) (c : Constant) :
    Except Fault (GoString × GoString × GoString) :=
  if c.tag ≠ 10 then .error .notMethodRef
  else do
    let i ← Uint16 c.data
    let e ← parent.getConstant i
    let cn ← e.getClassName parent
    if c.data.length < 2 then .error .indexOutOfRange
    else do
      let j ← Uint16 (c.data.drop 2)
      let e2 ← parent.getConstant j
      let (n, t) ← e2.getNameAndType parent
      pure (cn, n, t)

/-- The method `ClassFile.getThisClassName`. -/
def ClassFile.getThisClassName (cf : ClassFile) : Except Fault GoString := do
  let c ← cf.getConstant cf.thisClass
  c.getClassName cf

/-- The method `ClassFile.getString`. -/
def ClassFile.getString (cf : ClassFile) (idx : Nat) : Except Fault GoString := do
  let c ← cf.getConstant idx
  c.getString

/-- The method `Method.getMethodName`; `parent` is the class `m.parent`. -/
def Method.getMethodName (parent : ClassFile) (m : Method) : Except Fault GoString := do
  let c ← index parent.constantPool (dec16 m.nameIndex)
  c.getString

/-- The method `Method.getDescriptor`. -/
def Method.getDescriptor (parent : ClassFile) (m : Method) : Except Fault GoString := do
  let c ← index parent.constantPool (dec16 m.descriptorIndex)
  c.getString

/-- The loop of `Method.getAttribute` over the attributes still to visit. -/
def getAttributeFrom (parent : ClassFile) (tag : GoString) :
    List Attribute → Except Fault Attribute
  | [] => .error .attributeNotFound
  | attrib :: rest => do
    let name ← parent.getString attrib.attributeNameIndex
    if name = tag then pure attrib else getAttributeFrom parent tag rest

/-- The method `Method.getAttribute`. -/
def Method.getAttribute (parent : ClassFile) (m : Method) (tag : GoString) :
    Except Fault Attribute :=
  getAttributeFrom parent tag m.attributes

/-- The function `readAttribute`: the attribute and the buffer left. -/
def readAttribute (buffer : List Nat) : Attribute × List Nat :=
  let (nameIndex, b1) := readU16 buffer
  let (length, b2) := readU32 b1
  let (data, b3) := readBytes length b2
  (⟨nameIndex, data⟩, b3)

/-- The loops `for i := uint16(0); i < count; i++ { xs[i] = readAttribute(..) }`. -/
def readAttributes : Nat → List Nat → List Attribute × List Nat
  | 0, buffer => ([], buffer)
  | n + 1, buffer =>
    let (a, b1) := readAttribute buffer
    let (rest, b2) := readAttributes n b1
    (a :: rest, b2)

/-- The string "Code". -/
def strCode : GoString := [67, 111, 100, 101]

/-- The method `Attribute.toCodeAttribute`; `parent` is the class `a.parent`. -/
def Attribute.toCodeAttribute (parent : ClassFile) (a : Attribute) :
    Except Fault CodeAttribute := do
  let name ← parent.getString a.attributeNameIndex
  if name ≠ strCode then .error .notCodeAttribute
  else do
    let (maxStack, b1) := readU16 a.data
    let (maxLocals, b2) := readU16 b1
    let (codeLength, b3) := readU32 b2
    let (code, b4) := readBytes codeLength b3
    let (exLength, b5) := readU16 b4
    let (exceptionTables, b6) ← readExceptionTables exLength b5
    let (attribLength, b7) := readU16 b6
    let (attributes, _) := readAttributes attribLength b7
    pure ⟨maxStack, maxLocals, code, exceptionTables, attributes⟩

/-- The method `Method.GetCode`. -/
def Method.GetCode (parent : ClassFile) (m : Method) : Except Fault CodeAttribute := do
  let a ← m.getAttribute parent strCode
  a.toCodeAttribute parent

/-- The loop of `ClassFile.FindMethod` over the methods still to visit;
`none` is the `nil` result. -/
def findMethodFrom (cf : ClassFile) (name descriptor : GoString) :
    List Method → Except Fault (Option Method)
  | [] => .ok none
  | method :: rest => do
    let n ← method.getMethodName cf
    if n = name then
      let d ← method.getDescriptor cf
      if d = descriptor then pure (some method)
      else findMethodFrom cf name descriptor rest
    else findMethodFrom cf name descriptor rest

/-- The method `ClassFile.FindMethod`. -/
def ClassFile.FindMethod (cf : ClassFile) (name descriptor : GoString) :
    Except Fault (Option Method) :=
  findMethodFrom cf name descriptor cf.methods

/-- The function `readField`. -/
def readField (buffer : List Nat) : Field × List Nat :=
  let (accessFlag, b1) := readU16 buffer
  let (nameIndex, b2) := readU16 b1
  let (descriptorIndex, b3) := readU16 b2
  let (attribCount, b4) := readU16 b3
  let (attributes, b5) := readAttributes attribCount b4
  (⟨accessFlag, nameIndex, descriptorIndex, attributes⟩, b5)

/-- The function `readMethod`. -/
def readMethod (buffer : List Nat) : Method × List Nat :=
  let (accessFlag, b1) := readU16 buffer
  let (nameIndex, b2) := readU16 b1
  let (descriptorIndex, b3) := readU16 b2
  let (attribCount, b4) := readU16 b3
  let (attributes, b5) := readAttributes attribCount b4
  (⟨accessFlag, nameIndex, descriptorIndex, attributes⟩, b5)

/-- The table of the `switch` in `readConstant` for the tags other than 1:
the payload length, or `none` in the `default` case. -/
def constantLength (tag : Nat) : Option Nat :=
  if tag = 3 then some 4
  else if tag = 4 then some 4
  else if tag = 5 then some 8
  else if tag = 6 then some 8
  else if tag = 7 then some 2
  else if tag = 8 then some 2
  else if tag = 9 then some 4
  else if tag = 10 then some 4
  else if tag = 11 then some 4
  else if tag = 12 then some 4
  else if tag = 15 then some 3
  else if tag = 16 then some 2
  else if tag = 18 then some 4
  else none

/-- The function `readConstant`: the constant and the buffer left. -/
def readConstant (buffer : List Nat) : Except Fault (Constant × List Nat) :=
  let (tag, b1) := readU8 buffer
  if tag = 1 then
    let (strLength, b2) := readU16 b1
    let (b, b3) := readBytes strLength b2
    .ok (⟨tag, b⟩, b3)
  else
    match constantLength tag with
    | some length =>
      let (b, b3) := readBytes length b1
      .ok (⟨tag, b⟩, b3)
    | none => .error .unknownConstantTag

/-- The loop of `ParseClassFile` that fills the constant pool. -/
def readConstants : Nat → List Nat → Except Fault (List Constant × List Nat)
  | 0, buffer => .ok ([], buffer)
  | n + 1, buffer => do
    let (c, b1) ← readConstant buffer
    let (rest, b2) ← readConstants n b1
    pure (c :: rest, b2)

/-- The loop of `ParseClassFile` that fills the fields. -/
def readFields : Nat → List Nat → List Field × List Nat
  | 0, buffer => ([], buffer)
  | n + 1, buffer =>
    let (f, b1) := readField buffer
    let (rest, b2) := readFields n b1
    (f :: rest, b2)

/-- The loop of `ParseClassFile` that fills the methods. -/
def readMethods : Nat → List Nat → List Method × List Nat
  | 0, buffer => ([], buffer)
  | n + 1, buffer =>
    let (m, b1) := readMethod buffer
    let (rest, b2) := readMethods n b1
    (m :: rest, b2)

/-- The function `ParseClassFile`, from the contents `dat` of the file. -/
def ParseClassFile (dat : List Nat) : Except Fault ClassFile :=
  let (magic, b1) := readU32 dat
  if magic ≠ 0xCAFEBABE then .error .unknownMagic
  else
    let (minorVersion, b2) := readU16 b1
    let (majorVersion, b3) := readU16 b2
    let (constantPoolCount, b4) := readU16 b3
    match readConstants (dec16 constantPoolCount) b4 with
    | .error e => .error e
    | .ok (constantPool, b5) =>
      let (accessFlag, b6) := readU16 b5
      let (thisClass, b7) := readU16 b6
      let (superClass, b8) := readU16 b7
      let (interfaceCount, b9) := readU16 b8
      let (interfaces, b10) := readU16s interfaceCount b9
      let (fieldCount, b11) := readU16 b10
      let (fields, b12) := readFields fieldCount b11
      let (methodCount, b13) := readU16 b12
      let (methods, b14) := readMethods methodCount b13
      let (attribCount, b15) := readU16 b14
      let (attributes, _) := readAttributes attribCount b15
      .ok ⟨magic, minorVersion, majorVersion, constantPool, accessFlag, thisClass,
        superClass, interfaces, fields, methods, attributes⟩

/-! ## descriptorparser.go -/

/-- The string "I". -/
def strI : GoString := [73]

/-- The loop `for desc[i] != ')'` of `ParseDescriptor`, on `desc[i:]` and the
arguments gathered so far: the arguments and the text from the `)` on. -/
def parseArgs : List Nat → List GoString → Except Fault (List GoString × List Nat)
  | [], _ => .error .indexOutOfRange
  | c :: rest, args =>
    if c = 41 then .ok (args, c :: rest)
    else if c = 73 then parseArgs rest (args ++ [strI])
    else .error .unimplementedArgSymbol

/-- The function `ParseDescriptor`: the return tag and the argument tags. -/
def ParseDescriptor (desc : GoString) : Except Fault (GoString × List GoString) :=
  match desc with
  | [] => .error .indexOutOfRange
  | c :: rest =>
    if c ≠ 40 then .error .invalidDescriptor
    else do
      let (args, rest2) ← parseArgs rest []
      match rest2 with
      | [] => .error .indexOutOfRange
      | c2 :: rest3 =>
        if c2 ≠ 41 then .error .invalidDescriptor
        else
          match rest3 with
          | [] => .error .indexOutOfRange
          | c3 :: _ =>
            if c3 = 73 then .ok (strI, args) else .error .unimplementedReturnSymbol

/-! ## classloader.go -/

/-- The method `ClassLoader.FindClass`. -/
def ClassLoader.FindClass (cl : ClassLoader) (className : GoString) : Except Fault ClassFile :=
  match cl.loadedClasses.lookup className with
  | some loaded => .ok loaded
  | none => .error .classNotLoaded

/-! ## instructions.go -/

/-- The function `bipush_Op`. -/
def bipush_Op (code : List Nat) (frame : Frame) : Except Fault Frame := do
  let b ← index code (frame.pc + 1)
  pure { frame with stack := frame.stack ++ [b], pc := frame.pc + 2 }

/-- The function `iconst_1_Op`. -/
def iconst_1_Op (_code : List Nat) (frame : Frame) : Except Fault Frame :=
  .ok { frame with stack := frame.stack ++ [1], pc := frame.pc + 1 }

/-- The function `iload_0_Op`. -/
def iload_0_Op (_code : List Nat) (frame : Frame) : Except Fault Frame := do
  let v ← index frame.locals 0
  pure { frame with stack := frame.stack ++ [v], pc := frame.pc + 1 }

/-- The function `pop_Op`. -/
def pop_Op (_code : List Nat) (frame : Frame) : Except Fault Frame :=
  if frame.stack.length < 1 then .error .indexOutOfRange
  else .ok { frame with stack := frame.stack.take (frame.stack.length - 1), pc := frame.pc + 1 }

/-- The function `isub_Op`. -/
def isub_Op (_code : List Nat) (frame : Frame) : Except Fault Frame :=
  if frame.stack.length < 1 then .error .indexOutOfRange
  else do
    let value2 ← index frame.stack (frame.stack.length - 1)
    if frame.stack.length < 2 then .error .indexOutOfRange
    else do
      let value1 ← index frame.stack (frame.stack.length - 2)
      let stack := frame.stack.set (frame.stack.length - 2) (sub32 value1 value2)
      pure { frame with stack := stack.take (stack.length - 1), pc := frame.pc + 1 }

/-- The function `imul_Op`. -/
def imul_Op (_code : List Nat) (frame : Frame) : Except Fault Frame :=
  if frame.stack.length < 1 then .error .indexOutOfRange
  else do
    let value2 ← index frame.stack (frame.stack.length - 1)
    if frame.stack.length < 2 then .error .indexOutOfRange
    else do
      let value1 ← index frame.stack (frame.stack.length - 2)
      let stack := frame.stack.set (frame.stack.length - 2) (mul32 value1 value2)
      pure { frame with stack := stack.take (stack.length - 1), pc := frame.pc + 1 }

/-- The function `goto_Op`. -/
def goto_Op (code : List Nat) (frame : Frame) : Except Fault Frame := do
  let offset ← Uint16 (code.drop (frame.pc + 1))
  pure { frame with pc := frame.pc + offset }

/-- The function `if_icmpne_Op`. -/
def if_icmpne_Op (code : List Nat) (frame : Frame) : Except Fault Frame := do
  let offset ← Uint16 (code.drop (frame.pc + 1))
  if frame.stack.length < 1 then .error .indexOutOfRange
  else do
    let value2 ← index frame.stack (frame.stack.length - 1)
    if frame.stack.length < 2 then .error .indexOutOfRange
    else do
      let value1 ← index frame.stack (frame.stack.length - 2)
      let stack := frame.stack.take (frame.stack.length - 2)
      if value1 ≠ value2 then pure { frame with stack := stack, pc := frame.pc + offset }
      else pure { frame with stack := stack, pc := frame.pc + 3 }

/-- The function `getstatic_Op`. -/
def getstatic_Op (code : List Nat) (frame : Frame) : Except Fault Frame := do
  let idx ← Uint16 (code.drop (frame.pc + 1))
  pure { frame with stack := frame.stack ++ [idx], pc := frame.pc + 3 }

/-- The function `ldc_Op`. -/
def ldc_Op (code : List Nat) (frame : Frame) : Except Fault Frame := do
  let idx ← index code (frame.pc + 1)
  pure { frame with stack := frame.stack ++ [idx], pc := frame.pc + 2 }

/-- The loop of `invokestatic_Op` that fills `args`, from `i` on with `n`
entries still to fill: `args[i] = frame.stack[len(frame.stack) - i - 1]`. -/
def collectArgs (stack : List Nat) : Nat → Nat → Except Fault (List Nat)
  | _, 0 => .ok []
  | i, n + 1 =>
    if stack.length < i + 1 then .error .indexOutOfRange
    else do
      let v ← index stack (stack.length - i - 1)
      let rest ← collectArgs stack (i + 1) n
      pure (v :: rest)

/-- What `invokestatic_Op` has in hand when it reaches `vm.CallMethod`: the
class found, the method found in it (`none` for `nil`), the return tag, the
arguments, and the caller's stack without them. -/
structure Invocation where
  target : ClassFile
  method : Option Method
  retDesc : GoString
  args : List Nat
  stack : List Nat
  deriving DecidableEq, Repr

/-- The part of `invokestatic_Op` before `vm.CallMethod`; `self` is the
class `m.parent` and `cl` its loader. -/
def prepareInvoke (cl : ClassLoader) (self : ClassFile) (code : List Nat) (frame : Frame) :
    Except Fault Invocation := do
  let idx ← Uint16 (code.drop (frame.pc + 1))
  let c ← self.getConstant idx
  let (className, methodName, descriptor) ← c.getMethodRef self
  let target ← cl.FindClass className
  let method ← target.FindMethod methodName descriptor
  let (retDesc, argsDesc) ← ParseDescriptor descriptor
  let args ← collectArgs frame.stack 0 argsDesc.length
  pure ⟨target, method, retDesc, args, frame.stack.take (frame.stack.length - args.length)⟩

/-- The function `invokestatic_Op`; `call` is `vm.CallMethod`, given the
class that owns the method. -/
def invokestatic_Op (call : ClassFile → Option Method → List Nat → Except Fault Nat)
    (cl : ClassLoader) (self : ClassFile) (code : List Nat) (frame : Frame) :
    Except Fault Frame := do
  let inv ← prepareInvoke cl self code frame
  let returnValue ← call inv.target inv.method inv.args
  if inv.retDesc ≠ [86] then
    pure { frame with stack := inv.stack ++ [returnValue], pc := frame.pc + 3 }
  else
    pure { frame with stack := inv.stack, pc := frame.pc + 3 }

/-- The function `return_Op`. -/
def return_Op (code : List Nat) (frame : Frame) : Except Fault Frame :=
  .ok { frame with returnValue := 0, pc := code.length }

/-- The function `ireturn_Op`. -/
def ireturn_Op (code : List Nat) (frame : Frame) : Except Fault Frame :=
  if frame.stack.length < 1 then .error .indexOutOfRange
  else do
    let v ← index frame.stack (frame.stack.length - 1)
    pure { frame with returnValue := v, stack := frame.stack.take (frame.stack.length - 1),
                      pc := code.length }

/-- One turn of the loop of `ProcessInstruction`: the `switch` on the opcode
at `frame.pc`. -/
def step (call : ClassFile → Option Method → List Nat → Except Fault Nat)
    (cl : ClassLoader) (self : ClassFile) (code : List Nat) (frame : Frame) :
    Except Fault Frame := do
  let op ← index code frame.pc
  if op = 0x04 then iconst_1_Op code frame
  else if op = 0x10 then bipush_Op code frame
  else if op = 0x1a then iload_0_Op code frame
  else if op = 0x57 then pop_Op code frame
  else if op = 0x12 then ldc_Op code frame
  else if op = 0x64 then isub_Op code frame
  else if op = 0x68 then imul_Op code frame
  else if op = 0xa0 then if_icmpne_Op code frame
  else if op = 0xa7 then goto_Op code frame
  else if op = 0xac then ireturn_Op code frame
  else if op = 0xb2 then getstatic_Op code frame
  else if op = 0xb8 then invokestatic_Op call cl self code frame
  else if op = 0xb1 then return_Op code frame
  else .error (.unimplementedInstruction op)

/-- The loop `for frame.pc < len(code.code)` of `ProcessInstruction`, with a
budget of turns: the frame on leaving the loop. -/
def runLoop (call : ClassFile → Option Method → List Nat → Except Fault Nat)
    (cl : ClassLoader) (self : ClassFile) (code : List Nat) : Nat → Frame → Except Fault Frame
  | 0, frame => if frame.pc < code.length then .error .outOfFuel else .ok frame
  | n + 1, frame =>
    if frame.pc < code.length then do
      let next ← step call cl self code frame
      runLoop call cl self code n next
    else .ok frame

/-- The function `ProcessInstruction` (and `VirtualMachine.CallMethod`, which
only forwards to it).  `fuel` bounds both the depth of nested calls and the
turns of each loop; `parent` is the class `method.parent`, `none` a `nil`
method. -/
def ProcessInstruction (cl : ClassLoader) :
    Nat → ClassFile → Option Method → List Nat → Except Fault Nat
  | 0, _, _, _ => .error .outOfFuel
  | fuel + 1, parent, method, args =>
    match method with
    | none => .error .nilDereference
    | some m => do
      let code ← m.GetCode parent
      let frame ← runLoop (ProcessInstruction cl fuel) cl parent code.code (fuel + 1)
        ⟨0, [], args, 0⟩
      pure frame.returnValue

/-! ## vm.go -/

/-- The string "<clinit>". -/
def strClinit : GoString := [60, 99, 108, 105, 110, 105, 116, 62]

/-- The string "()V". -/
def strVoidDescriptor : GoString := [40, 41, 86]

/-- The method `VirtualMachine.CallStaticInitializer`. -/
def CallStaticInitializer (cl : ClassLoader) (fuel : Nat) (cf : ClassFile) :
    Except Fault Unit := do
  let method ← cf.FindMethod strClinit strVoidDescriptor
  match method with
  | some m =>
    let _ ← ProcessInstruction cl fuel cf (some m) []
    pure ()
  | none => pure ()

/-- The method `ClassLoader.LoadClassByFile`, from the contents of the file:
the loader with its map updated, and the class. -/
def LoadClassByFile (cl : ClassLoader) (fuel : Nat) (dat : List Nat) :
    Except Fault (ClassLoader × ClassFile) := do
  let cf ← ParseClassFile dat
  let name ← cf.getThisClassName
  let cl2 : ClassLoader := ⟨(name, cf) :: cl.loadedClasses⟩
  CallStaticInitializer cl2 fuel cf
  pure (cl2, cf)

/-- The frames at the head of the loop of `ProcessInstruction`, one per turn,
until the loop is left, a step fails or the budget is spent: the run of
`runLoop`, recorded. -/
def loopTrace (call : ClassFile → Option Method → List Nat → Except Fault Nat)
    (cl : ClassLoader) (self : ClassFile) (code : List Nat) : Nat → Frame → List Frame
  | 0, frame => [frame]
  | n + 1, frame =>
    if frame.pc < code.length then
      match step call cl self code frame with
      | .ok next => frame :: loopTrace call cl self code n next
      | .error _ => [frame]
    else [frame]

/-! ## Sample classes -/

/-- The payload of a `Code` attribute with one stack slot, one local, the
given instruction bytes, no exception rows and no nested attributes. -/
def codePayload (code : List Nat) : List Nat :=
  [0, 1, 0, 1, 0, 0, 0, code.length] ++ code ++ [0, 0, 0, 0]

/-- A class named `A` with the static methods `f : (I)I` and `g : (II)I`, both
of body `iload_0; ireturn`, and `h : ()I`, of body
`bipush 7; goto +4; iconst_1; ireturn`.  Constant pool: 1 `"A"`, 2 class 1,
3 `"f"`, 4 `"(I)I"`, 5 name-and-type (3, 4), 6 method-ref (2, 5), 7 `"Code"`,
8 `"g"`, 9 `"(II)I"`, 10 name-and-type (8, 9), 11 method-ref (2, 10), 12 `"h"`,
13 `"()I"`. -/
def sampleClass : ClassFile where
  magic := 0xCAFEBABE
  minorVersion := 0
  majorVersion := 52
  constantPool :=
    [⟨1, [65]⟩, ⟨7, [0, 1]⟩, ⟨1, [102]⟩, ⟨1, [40, 73, 41, 73]⟩, ⟨12, [0, 3, 0, 4]⟩,
     ⟨10, [0, 2, 0, 5]⟩, ⟨1, [67, 111, 100, 101]⟩, ⟨1, [103]⟩, ⟨1, [40, 73, 73, 41, 73]⟩,
     ⟨12, [0, 8, 0, 9]⟩, ⟨10, [0, 2, 0, 10]⟩, ⟨1, [104]⟩, ⟨1, [40, 41, 73]⟩]
  accessFlag := 0x21
  thisClass := 2
  superClass := 0
  interfaces := []
  fields := []
  methods :=
    [⟨9, 3, 4, [⟨7, codePayload [0x1a, 0xac]⟩]⟩,
     ⟨9, 8, 9, [⟨7, codePayload [0x1a, 0xac]⟩]⟩,
     ⟨9, 12, 13, [⟨7, codePayload [0x10, 0x07, 0xa7, 0x00, 0x04, 0x04, 0xac]⟩]⟩]
  attributes := []

/-- The method `f` of `sampleClass`. -/
def sampleF : Method := ⟨9, 3, 4, [⟨7, codePayload [0x1a, 0xac]⟩]⟩

/-- The method `g` of `sampleClass`. -/
def sampleG : Method := ⟨9, 8, 9, [⟨7, codePayload [0x1a, 0xac]⟩]⟩

/-- The method `h` of `sampleClass`. -/
def sampleH : Method :=
  ⟨9, 12, 13, [⟨7, codePayload [0x10, 0x07, 0xa7, 0x00, 0x04, 0x04, 0xac]⟩]⟩

/-- A loader in which `sampleClass` is registered under its name `A`. -/
def sampleLoader : ClassLoader := ⟨[([65], sampleClass)]⟩

/-- A method of `sampleClass` whose `Code` attribute holds the given bytes. -/
def methodWithCode (code : List Nat) : Method := ⟨9, 12, 13, [⟨7, codePayload code⟩]⟩

/-- The bytes of a class file: magic, version 0.52, a constant pool of two
entries (`"A"` and the class of that name), access flags, this-class 2,
super-class 0, no interfaces, no fields, one method without attributes, no
class attributes. -/
def sampleFile : List Nat :=
  [0xCA, 0xFE, 0xBA, 0xBE, 0, 0, 0, 52, 0, 3,
   1, 0, 1, 65, 7, 0, 1,
   0, 0x21, 0, 2, 0, 0,
   0, 0, 0, 0,
   0, 1, 0, 9, 0, 1, 0, 1, 0, 0,
   0, 0]

/-- The first 27 bytes of `sampleFile`: cut after the field count. -/
def truncatedFile : List Nat :=
  [0xCA, 0xFE, 0xBA, 0xBE, 0, 0, 0, 52, 0, 3,
   1, 0, 1, 65, 7, 0, 1,
   0, 0x21, 0, 2, 0, 0,
   0, 0, 0, 0]

/-- The bytes of a class file with an empty constant pool and one method
whose name and descriptor indices are 0. -/
def danglingFile : List Nat :=
  [0xCA, 0xFE, 0xBA, 0xBE, 0, 0, 0, 52, 0, 1,
   0, 0x21, 0, 0, 0, 0,
   0, 0, 0, 0,
   0, 1, 0, 9, 0, 0, 0, 0, 0, 0,
   0, 0]

/-- The class that `ParseClassFile` returns on `danglingFile`. -/
def danglingClass : ClassFile :=
  ⟨0xCAFEBABE, 0, 52, [], 0x21, 0, 0, [], [], [⟨9, 0, 0, []⟩], []⟩

/-- A method of `sampleClass` whose first attribute has the name index 0 and
whose second attribute is named `Code`. -/
def danglingAttrMethod : Method :=
  ⟨9, 12, 13, [⟨0, []⟩, ⟨7, codePayload [0xb1]⟩]⟩

/-- A method of `sampleClass` whose only attribute has, as name index, the
index 2 of a class entry. -/
def classNamedAttrMethod : Method := ⟨9, 12, 13, [⟨2, []⟩]⟩

/-- The two bytes of a 16-bit value, big-endian, as the class-file format of
the specification lays them out. -/
def encodeU16 (n : Nat) : List Nat := [n / 256, n % 256]

/-- The four bytes of a 32-bit value, big-endian. -/
def encodeU32 (n : Nat) : List Nat :=
  [n / 16777216, n / 65536 % 256, n / 256 % 256, n % 256]

/-- An attribute record as the specification lays it out: 2-byte name index,
4-byte length, that many bytes. -/
def encodeAttribute (a : Attribute) : List Nat :=
  encodeU16 a.attributeNameIndex ++ (encodeU32 a.data.length ++ a.data)

/-- Consecutive attribute records. -/
def encodeAttributes : List Attribute → List Nat
  | [] => []
  | a :: rest => encodeAttribute a ++ encodeAttributes rest

/-- A `Code` attribute of `sampleClass` with code `b1` and one exception row
(start 0, end 1, handler 0, catch type 0). -/
def codeWithHandler : Attribute :=
  ⟨7, [0, 1, 0, 1, 0, 0, 0, 1, 0xb1, 0, 1, 0, 0, 0, 1, 0, 0, 0, 0, 0, 0]⟩

/-! ## Auxiliary facts about the primitives -/

theorem index_append_cons {α : Type} (s : List α) (x : α) (t : List α) :
    index (s ++ x :: t) s.length = .ok x := by
  have h : (s ++ x :: t).get? s.length = some x := by
    induction s with
    | nil => rfl
    | cons z s ih => simpa using ih
  unfold index
  rw [h]

theorem index_eq_ok_iff {α : Type} (xs : List α) (i : Nat) (x : α) :
    index xs i = .ok x ↔ xs.get? i = some x := by
  unfold index
  cases h : xs.get? i <;> simp

theorem set_append_cons {α : Type} (s : List α) (x y : α) (t : List α) :
    (s ++ x :: t).set s.length y = s ++ y :: t := by
  induction s with
  | nil => rfl
  | cons z s ih => simp [List.set, ih]

theorem take_append_length {α : Type} (s t : List α) :
    (s ++ t).take s.length = s := by
  simp

theorem sub32_eq (a b : Nat) (ha : a < 4294967296) (hb : b < 4294967296) :
    ((sub32 a b : Nat) : Int) = ((a : Int) - (b : Int)) % 4294967296 := by
  unfold sub32
  rw [Nat.mod_eq_of_lt ha, Nat.mod_eq_of_lt hb]
  omega

/-- What `isub_Op` does on a stack with two elements on top. -/
theorem isub_Op_two (code : List Nat) (f : Frame) (s : List Nat) (a b : Nat)
    (hs : f.stack = s ++ [a, b]) :
    isub_Op code f = .ok { f with stack := s ++ [sub32 a b], pc := f.pc + 1 } := by
  have h1 : index (s ++ [a, b]) (s.length + 1) = .ok b := by
    have := index_append_cons (s ++ [a]) b []
    simpa using this
  have h2 : index (s ++ [a, b]) s.length = .ok a := index_append_cons s a [b]
  have h3 : (s ++ [a, b]).set s.length (sub32 a b) = s ++ [sub32 a b, b] :=
    set_append_cons s a (sub32 a b) [b]
  have h4 : (s ++ [sub32 a b, b]).take (s.length + 1) = s ++ [sub32 a b] := by
    have := take_append_length (s ++ [sub32 a b]) [b]
    simpa using this
  unfold isub_Op
  rw [hs]
  simp only [List.length_append, List.length_cons, List.length_nil]
  have e1 : s.length + (0 + 1 + 1) - 1 = s.length + 1 := by omega
  have e2 : s.length + (0 + 1 + 1) - 2 = s.length := by omega
  have n1 : ¬ (s.length + (0 + 1 + 1) < 1) := by omega
  have n2 : ¬ (s.length + (0 + 1 + 1) < 2) := by omega
  rw [e1, e2, if_neg n1, h1]
  simp only [bind, Except.bind, if_neg n2, h2, h3, pure, Except.pure]
  simp only [List.length_append, List.length_cons, List.length_nil]
  have e3 : s.length + (0 + 1 + 1) - 1 = s.length + 1 := by omega
  rw [e3, h4]

/-- What `imul_Op` does on a stack with two elements on top. -/
theorem imul_Op_two (code : List Nat) (f : Frame) (s : List Nat) (a b : Nat)
    (hs : f.stack = s ++ [a, b]) :
    imul_Op code f = .ok { f with stack := s ++ [mul32 a b], pc := f.pc + 1 } := by
  have h1 : index (s ++ [a, b]) (s.length + 1) = .ok b := by
    have := index_append_cons (s ++ [a]) b []
    simpa using this
  have h2 : index (s ++ [a, b]) s.length = .ok a := index_append_cons s a [b]
  have h3 : (s ++ [a, b]).set s.length (mul32 a b) = s ++ [mul32 a b, b] :=
    set_append_cons s a (mul32 a b) [b]
  have h4 : (s ++ [mul32 a b, b]).take (s.length + 1) = s ++ [mul32 a b] := by
    have := take_append_length (s ++ [mul32 a b]) [b]
    simpa using this
  unfold imul_Op
  rw [hs]
  simp only [List.length_append, List.length_cons, List.length_nil]
  have e1 : s.length + (0 + 1 + 1) - 1 = s.length + 1 := by omega
  have e2 : s.length + (0 + 1 + 1) - 2 = s.length := by omega
  have n1 : ¬ (s.length + (0 + 1 + 1) < 1) := by omega
  have n2 : ¬ (s.length + (0 + 1 + 1) < 2) := by omega
  rw [e1, e2, if_neg n1, h1]
  simp only [bind, Except.bind, if_neg n2, h2, h3, pure, Except.pure]
  simp only [List.length_append, List.length_cons, List.length_nil]
  have e3 : s.length + (0 + 1 + 1) - 1 = s.length + 1 := by omega
  rw [e3, h4]

theorem index_of_drop {α : Type} (xs : List α) (i : Nat) (x : α) (t : List α)
    (h : xs.drop i = x :: t) : index xs i = .ok x := by
  have h2 : xs.get? i = some x := by
    have := List.getElem?_drop xs i 0
    rw [h] at this
    simpa using this.symm
  unfold index
  rw [h2]

theorem drop_succ_of_drop {α : Type} (xs : List α) (i : Nat) (x : α) (t : List α)
    (h : xs.drop i = x :: t) : xs.drop (i + 1) = t := by
  have : xs.drop (i + 1) = (xs.drop i).drop 1 := by
    rw [List.drop_drop, Nat.add_comm]
  rw [this, h]
  rfl

/-- The loop that fills `args` reads the stack from its top downwards. -/
theorem collectArgs_eq (stack : List Nat) (n i : Nat) (h : i + n ≤ stack.length) :
    collectArgs stack i n = .ok ((stack.reverse.drop i).take n) := by
  induction n generalizing i with
  | zero => simp [collectArgs]
  | succ n ih =>
    have hlt : i < stack.reverse.length := by simp; omega
    have hget : stack.get? (stack.length - i - 1) = some (stack.reverse.get ⟨i, hlt⟩) := by
      have h1 : stack.length - i - 1 < stack.length := by omega
      have e : stack.length - 1 - i = stack.length - i - 1 := by omega
      rw [List.get?_eq_get h1]
      simp only [List.get_eq_getElem, List.getElem_reverse, e]
    have hidx : index stack (stack.length - i - 1) = .ok (stack.reverse.get ⟨i, hlt⟩) := by
      unfold index
      rw [hget]
    have hdrop : stack.reverse.drop i
        = stack.reverse.get ⟨i, hlt⟩ :: stack.reverse.drop (i + 1) :=
      List.drop_eq_getElem_cons hlt
    have hn : ¬ (stack.length < i + 1) := by omega
    rw [collectArgs, if_neg hn, hidx, hdrop]
    simp only [bind, Except.bind, pure, Except.pure]
    rw [ih (i + 1) (by omega)]
    simp

theorem collectArgs_top (s xs : List Nat) :
    collectArgs (s ++ xs) 0 xs.length = .ok xs.reverse := by
  rw [collectArgs_eq (s ++ xs) xs.length 0 (by simp)]
  simp

/-- The argument loop of `ParseDescriptor` on `n` symbols `I` and a `)`. -/
theorem parseArgs_replicate (n : Nat) (rest : List Nat) (args : List GoString) :
    parseArgs (List.replicate n 73 ++ 41 :: rest) args
      = .ok (args ++ List.replicate n strI, 41 :: rest) := by
  induction n generalizing args with
  | zero => simp [parseArgs]
  | succ n ih =>
    rw [List.replicate_succ, List.cons_append, parseArgs]
    rw [if_neg (by decide), if_pos rfl, ih]
    simp [List.replicate_succ]

/-- The argument loop of `ParseDescriptor` succeeds on nothing else. -/
theorem parseArgs_ok (l : List Nat) (args a : List GoString) (r : List Nat)
    (h : parseArgs l args = .ok (a, r)) :
    ∃ n rest, l = List.replicate n 73 ++ 41 :: rest ∧ a = args ++ List.replicate n strI ∧
      r = 41 :: rest := by
  induction l generalizing args with
  | nil => simp [parseArgs] at h
  | cons c t ih =>
    rw [parseArgs] at h
    by_cases h41 : c = 41
    · rw [if_pos h41] at h
      simp only [Except.ok.injEq, Prod.mk.injEq] at h
      exact ⟨0, t, by simp [h41], by simp [h.1], by rw [← h.2, h41]⟩
    · rw [if_neg h41] at h
      by_cases h73 : c = 73
      · rw [if_pos h73] at h
        obtain ⟨n, rest, h1, h2, h3⟩ := ih _ h
        exact ⟨n + 1, rest, by simp [List.replicate_succ, h73, h1],
          by simp [h2, List.replicate_succ], h3⟩
      · rw [if_neg h73] at h
        simp at h

/-- The descriptors that `ParseDescriptor` accepts, and what it returns. -/
theorem ParseDescriptor_ok_iff (desc : GoString) (r : GoString × List GoString) :
    ParseDescriptor desc = .ok r ↔
      ∃ n rest, desc = 40 :: (List.replicate n 73 ++ 41 :: 73 :: rest) ∧
        r = (strI, List.replicate n strI) := by
  constructor
  · intro h
    cases desc with
    | nil => simp [ParseDescriptor] at h
    | cons c t =>
      by_cases h40 : c = 40
      · subst h40
        simp only [ParseDescriptor, ne_eq, not_true_eq_false, if_false, bind, Except.bind] at h
        cases hp : parseArgs t [] with
        | error e => rw [hp] at h; simp at h
        | ok v =>
          obtain ⟨a, r2⟩ := v
          obtain ⟨n, rest, h1, h2, h3⟩ := parseArgs_ok t [] a r2 hp
          rw [hp] at h
          subst h3
          simp only [if_false, not_true_eq_false] at h
          cases rest with
          | nil => simp at h
          | cons c3 rest3 =>
            by_cases h73 : c3 = 73
            · subst h73
              simp only [if_true, Except.ok.injEq] at h
              refine ⟨n, rest3, by rw [h1], ?_⟩
              rw [← h, h2]
              simp
            · simp [h73] at h
      · simp [ParseDescriptor, h40] at h
  · rintro ⟨n, rest, rfl, rfl⟩
    simp [ParseDescriptor, parseArgs_replicate, bind, Except.bind]

theorem readBytes_append (p rest : List Nat) :
    readBytes p.length (p ++ rest) = (p, rest) := by
  simp [readBytes]

theorem readU16_short (b : List Nat) (h : b.length < 2) : readU16 b = (0, []) := by
  match b, h with
  | [], _ => rfl
  | [_], _ => rfl
  | _ :: _ :: _, h => exact absurd h (by simp)

theorem readU16_left (b : List Nat) : (readU16 b).2.length ≤ b.length - 2 := by
  match b with
  | [] => simp [readU16]
  | [_] => simp [readU16]
  | _ :: _ :: _ => simp [readU16]

theorem readU32_left (b : List Nat) : (readU32 b).2.length ≤ b.length - 4 := by
  match b with
  | [] => simp [readU32]
  | [_] => simp [readU32]
  | [_, _] => simp [readU32]
  | [_, _, _] => simp [readU32]
  | _ :: _ :: _ :: _ :: _ => simp [readU32]

/-- A constant cannot be read from a buffer that is used up: the tag stays 0. -/
theorem readConstants_nil (n : Nat) :
    readConstants (n + 1) [] = .error .unknownConstantTag := by
  simp [readConstants, readConstant, readU8, constantLength, bind, Except.bind]

/-! ## Decoding a truncated buffer -/

/-- What `readBytes` leaves of the buffer: all but the first `n` bytes, or nothing. -/
theorem readBytes_snd_length (n : Nat) (ys : List Nat) :
    (readBytes n ys).2.length = ys.length - n := by
  unfold readBytes
  by_cases h : n ≤ ys.length
  · simp [h]
  · simp [h]; omega

/-- Reading `n` bytes from the first `m` bytes of a buffer: what is left is
empty unless the `n` bytes are all there and the whole buffer held more. -/
theorem readBytes_take (n m : Nat) (ys : List Nat) :
    ((readBytes n ys).2 ≠ [] ∧ n ≤ m →
      readBytes n (ys.take m) = ((readBytes n ys).1, (readBytes n ys).2.take (m - n))) ∧
    (¬ ((readBytes n ys).2 ≠ [] ∧ n ≤ m) → (readBytes n (ys.take m)).2 = []) := by
  unfold readBytes
  by_cases h : n ≤ ys.length
  · simp only [h, if_true]
    constructor
    · rintro ⟨_, hm⟩
      have h2 : n ≤ (ys.take m).length := by simp [List.length_take]; omega
      rw [if_pos h2, List.take_take, List.drop_take, Nat.min_eq_left hm]
    · intro hn
      by_cases h2 : n ≤ (ys.take m).length
      · rw [if_pos h2]
        simp only [List.length_take] at h2
        have hm : n ≤ m := by omega
        have hnil : ys.drop n = [] := by
          by_contra hne
          exact hn ⟨hne, hm⟩
        simp only [List.drop_take, hnil, List.take_nil]
      · rw [if_neg h2]
  · simp only [h, if_false]
    constructor
    · rintro ⟨hne, _⟩
      exact absurd rfl hne
    · intro _
      have h2 : ¬ n ≤ (ys.take m).length := by simp [List.length_take]; omega
      rw [if_neg h2]

/-- A constant cannot be read from an empty buffer. -/
theorem readConstant_nil : readConstant [] = .error .unknownConstantTag := by
  simp [readConstant, readU8, constantLength]

/-- What `readConstant` returns on a buffer that starts with a tag of the
table other than 1. -/
theorem readConstant_fixed (t n : Nat) (xs : List Nat) (h1 : t ≠ 1)
    (hn : constantLength t = some n) :
    readConstant (t :: xs) = .ok (⟨t, (readBytes n xs).1⟩, (readBytes n xs).2) := by
  simp [readConstant, readU8, h1, hn]

/-- What `readConstant` returns on a Utf8 entry whose length is there. -/
theorem readConstant_utf8 (a b : Nat) (ys : List Nat) :
    readConstant (1 :: a :: b :: ys)
      = .ok (⟨1, (readBytes (a * 256 + b) ys).1⟩, (readBytes (a * 256 + b) ys).2) := by
  simp [readConstant, readU8, readU16]

/-- What `readConstant` returns on a Utf8 entry whose length is cut. -/
theorem readConstant_utf8_short (xs : List Nat) (h : xs.length < 2) :
    readConstant (1 :: xs) = .ok (⟨1, []⟩, []) := by
  simp [readConstant, readU8, readU16_short xs h, readBytes]

/-- Whether `readConstant` fails depends on the tag alone. -/
theorem readConstant_ok_of_tag (t : Nat) (xs ys : List Nat) (v : Constant × List Nat)
    (h : readConstant (t :: xs) = .ok v) : ∃ w, readConstant (t :: ys) = .ok w := by
  by_cases h1 : t = 1
  · subst h1
    by_cases hy : ys.length < 2
    · exact ⟨_, readConstant_utf8_short ys hy⟩
    · match ys, hy with
      | a :: b :: zs, _ => exact ⟨_, readConstant_utf8 a b zs⟩
      | [], hy => exact absurd (by simp) hy
      | [_], hy => exact absurd (by simp) hy
  · cases hn : constantLength t with
    | none => simp [readConstant, readU8, h1, hn] at h
    | some n => exact ⟨_, readConstant_fixed t n ys h1 hn⟩


/-- Bookkeeping for `readConstant_take`: a header of `H` bytes followed by a
payload read with `readBytes n`. -/
theorem readBytes_take_after (H n m : Nat) (ys : List Nat) (c : List Nat → Constant) :
    ∃ c' r', (c (readBytes n (ys.take m)).1, (readBytes n (ys.take m)).2) = (c', r') ∧
      (((readBytes n ys).2 ≠ [] ∧ (H + ys.length) - (readBytes n ys).2.length ≤ m + H) →
        c' = c (readBytes n ys).1 ∧
        r' = (readBytes n ys).2.take
          (m + H - ((H + ys.length) - (readBytes n ys).2.length))) ∧
      (¬ ((readBytes n ys).2 ≠ [] ∧ (H + ys.length) - (readBytes n ys).2.length ≤ m + H) →
        r' = []) := by
  have hlen := readBytes_snd_length n ys
  have hpos : (readBytes n ys).2 ≠ [] ↔ 0 < (readBytes n ys).2.length := by
    rw [List.length_pos]
  obtain ⟨t1, t2⟩ := readBytes_take n m ys
  refine ⟨_, _, rfl, ?_, ?_⟩
  · rintro ⟨hne, hle⟩
    have hp := hpos.mp hne
    have hnm : n ≤ m := by omega
    have heq := t1 ⟨hne, hnm⟩
    rw [heq]
    refine ⟨rfl, ?_⟩
    have : m + H - ((H + ys.length) - (readBytes n ys).2.length) = m - n := by omega
    rw [this]
  · intro hn
    apply t2
    rintro ⟨hne, hnm⟩
    have hp := hpos.mp hne
    exact hn ⟨hne, by omega⟩

/-- Reading a constant from the first `L > 0` bytes of a buffer from which a
constant can be read: the read succeeds; it gives the same constant and the
matching part of the rest when the entry is all there and the buffer held
more, and leaves nothing otherwise. -/
theorem readConstant_take (buf : List Nat) (L : Nat) (c : Constant) (r : List Nat)
    (h : readConstant buf = .ok (c, r)) (hL : 0 < L) :
    ∃ c' r', readConstant (buf.take L) = .ok (c', r') ∧
      ((r ≠ [] ∧ buf.length - r.length ≤ L) →
        c' = c ∧ r' = r.take (L - (buf.length - r.length))) ∧
      (¬ (r ≠ [] ∧ buf.length - r.length ≤ L) → r' = []) := by
  match buf, h with
  | [], h => rw [readConstant_nil] at h; exact absurd h (by simp)
  | t :: xs, h =>
    obtain ⟨L1, rfl⟩ : ∃ L1, L = L1 + 1 := ⟨L - 1, by omega⟩
    rw [List.take_succ_cons]
    by_cases h1 : t = 1
    · subst h1
      match xs, h with
      | [], h =>
        rw [readConstant_utf8_short [] (by simp)] at h
        simp only [Except.ok.injEq, Prod.mk.injEq] at h
        refine ⟨_, _, readConstant_utf8_short _ (by simp), ?_, fun _ => rfl⟩
        rintro ⟨hne, _⟩
        exact absurd h.2.symm hne
      | [a], h =>
        rw [readConstant_utf8_short [a] (by simp)] at h
        simp only [Except.ok.injEq, Prod.mk.injEq] at h
        refine ⟨_, _, readConstant_utf8_short _ ?_, ?_, fun _ => rfl⟩
        · have := List.length_take_le' L1 [a]
          simp only [List.length_singleton] at this
          omega
        · rintro ⟨hne, _⟩
          exact absurd h.2.symm hne
      | a :: b :: ys, h =>
        rw [readConstant_utf8] at h
        simp only [Except.ok.injEq, Prod.mk.injEq] at h
        obtain ⟨hc, hr⟩ := h
        have hlen := readBytes_snd_length (a * 256 + b) ys
        match L1 with
        | 0 =>
          refine ⟨_, _, readConstant_utf8_short _ (by simp), ?_, fun _ => rfl⟩
          rintro ⟨_, hle⟩
          rw [← hr] at hle
          simp only [List.length_cons] at hle
          omega
        | 1 =>
          refine ⟨_, _, readConstant_utf8_short _ (by simp), ?_, fun _ => rfl⟩
          rintro ⟨_, hle⟩
          rw [← hr] at hle
          simp only [List.length_cons] at hle
          omega
        | m + 2 =>
          rw [List.take_succ_cons, List.take_succ_cons, readConstant_utf8]
          obtain ⟨c', r', heq, k1, k2⟩ := readBytes_take_after 3 (a * 256 + b) m ys
            (fun d => ⟨1, d⟩)
          simp only [Prod.mk.injEq] at heq
          refine ⟨c', r', by rw [heq.1, heq.2], ?_, ?_⟩
          · rintro ⟨hne, hle⟩
            rw [← hr] at hne hle
            simp only [List.length_cons] at hle
            have := k1 ⟨hne, by omega⟩
            rw [← hc, ← hr]
            refine ⟨this.1, ?_⟩
            rw [this.2]
            congr 1
            simp only [List.length_cons]
            omega
          · intro hn
            apply k2
            rintro ⟨hne, hle⟩
            apply hn
            rw [← hr]
            simp only [List.length_cons]
            exact ⟨hne, by omega⟩
    · cases hn : constantLength t with
      | none => simp [readConstant, readU8, h1, hn] at h
      | some n =>
        rw [readConstant_fixed t n xs h1 hn] at h
        simp only [Except.ok.injEq, Prod.mk.injEq] at h
        obtain ⟨hc, hr⟩ := h
        rw [readConstant_fixed t n _ h1 hn]
        obtain ⟨c', r', heq, k1, k2⟩ := readBytes_take_after 1 n L1 xs (fun d => ⟨t, d⟩)
        simp only [Prod.mk.injEq] at heq
        refine ⟨c', r', by rw [heq.1, heq.2], ?_, ?_⟩
        · rintro ⟨hne, hle⟩
          rw [← hr] at hne hle
          simp only [List.length_cons] at hle
          have := k1 ⟨hne, by omega⟩
          rw [← hc, ← hr]
          refine ⟨this.1, ?_⟩
          rw [this.2]
          congr 1
          simp only [List.length_cons]
          omega
        · intro hn2
          apply k2
          rintro ⟨hne, hle⟩
          apply hn2
          rw [← hr]
          simp only [List.length_cons]
          exact ⟨hne, by omega⟩


/-- A constant that is read takes at least its tag byte off the buffer. -/
theorem readConstant_left (buf : List Nat) (c : Constant) (r : List Nat)
    (h : readConstant buf = .ok (c, r)) : r.length < buf.length := by
  match buf, h with
  | [], h => rw [readConstant_nil] at h; exact absurd h (by simp)
  | t :: xs, h =>
    by_cases h1 : t = 1
    · subst h1
      match xs, h with
      | [], h =>
        rw [readConstant_utf8_short [] (by simp)] at h
        simp only [Except.ok.injEq, Prod.mk.injEq] at h
        rw [← h.2]; simp
      | [a], h =>
        rw [readConstant_utf8_short [a] (by simp)] at h
        simp only [Except.ok.injEq, Prod.mk.injEq] at h
        rw [← h.2]; simp
      | a :: b :: ys, h =>
        rw [readConstant_utf8] at h
        simp only [Except.ok.injEq, Prod.mk.injEq] at h
        rw [← h.2, readBytes_snd_length]
        simp only [List.length_cons]
        omega
    · cases hn : constantLength t with
      | none => simp [readConstant, readU8, h1, hn] at h
      | some n =>
        rw [readConstant_fixed t n xs h1 hn] at h
        simp only [Except.ok.injEq, Prod.mk.injEq] at h
        rw [← h.2, readBytes_snd_length]
        simp only [List.length_cons]
        omega

/-- One more turn of the loop that fills the constant pool. -/
theorem readConstants_succ (n : Nat) (buf : List Nat) :
    readConstants (n + 1) buf =
      match readConstant buf with
      | .error e => .error e
      | .ok (c, b1) =>
        match readConstants n b1 with
        | .error e => .error e
        | .ok (rest, b2) => .ok (c :: rest, b2) := by
  rw [readConstants]
  cases h : readConstant buf with
  | error e => rfl
  | ok v =>
    obtain ⟨c, b1⟩ := v
    cases h2 : readConstants n b1 with
    | error e => simp [bind, Except.bind, h2]
    | ok w =>
      obtain ⟨rest, b2⟩ := w
      simp [bind, Except.bind, h2, pure, Except.pure]

/-- A successful run of the pool loop, taken apart into its first turn and the rest. -/
theorem readConstants_succ_ok (n : Nat) (buf : List Nat) (cs : List Constant) (r : List Nat)
    (h : readConstants (n + 1) buf = .ok (cs, r)) :
    ∃ c b1 cs', readConstant buf = .ok (c, b1) ∧ readConstants n b1 = .ok (cs', r) ∧
      cs = c :: cs' := by
  rw [readConstants_succ] at h
  cases h1 : readConstant buf with
  | error e => rw [h1] at h; simp at h
  | ok v =>
    obtain ⟨c, b1⟩ := v
    rw [h1] at h
    simp only at h
    cases h2 : readConstants n b1 with
    | error e => rw [h2] at h; simp at h
    | ok w =>
      obtain ⟨rest, b2⟩ := w
      rw [h2] at h
      simp only [Except.ok.injEq, Prod.mk.injEq] at h
      exact ⟨c, b1, rest, rfl, by rw [h2, h.2], h.1.symm⟩

/-- One more turn of the pool loop, the first constant being known. -/
theorem readConstants_succ_of (n : Nat) (buf : List Nat) (c : Constant) (b1 : List Nat)
    (h : readConstant buf = .ok (c, b1)) :
    readConstants (n + 1) buf =
      match readConstants n b1 with
      | .error e => .error e
      | .ok (rest, b2) => .ok (c :: rest, b2) := by
  rw [readConstants_succ, h]

/-- The pool loop returns as many constants as asked and does not lengthen the buffer. -/
theorem readConstants_left (k : Nat) (buf : List Nat) (cs : List Constant) (r : List Nat)
    (h : readConstants k buf = .ok (cs, r)) : r.length ≤ buf.length ∧ cs.length = k := by
  induction k generalizing buf cs with
  | zero =>
    simp only [readConstants, Except.ok.injEq, Prod.mk.injEq] at h
    rw [← h.1, ← h.2]
    simp
  | succ k ih =>
    obtain ⟨c, b1, cs', h1, h2, h3⟩ := readConstants_succ_ok k buf cs r h
    have := readConstant_left buf c b1 h1
    have := ih b1 cs' h2
    subst h3
    simp only [List.length_cons]
    omega

/-- The pool loop on a buffer cut at or before the tag of a constant still to
be read fails. -/
theorem readConstants_take_fails (k : Nat) (buf : List Nat) (cs : List Constant)
    (rest : List Nat) (L j : Nat)
    (h : readConstants k buf = .ok (cs, rest)) (hL : L ≤ buf.length - rest.length) :
    readConstants (k + j + 1) (buf.take L) = .error .unknownConstantTag := by
  induction k generalizing buf cs L with
  | zero =>
    simp only [readConstants, Except.ok.injEq, Prod.mk.injEq] at h
    have hz : L = 0 := by rw [← h.2] at hL; omega
    subst hz
    rw [List.take_zero, Nat.zero_add]
    exact readConstants_nil j
  | succ k ih =>
    obtain ⟨c, b1, cs', h1, h2, _⟩ := readConstants_succ_ok k buf cs rest h
    have hl1 := readConstant_left buf c b1 h1
    have hl2 := (readConstants_left k b1 cs' rest h2).1
    by_cases hz : L = 0
    · subst hz
      rw [List.take_zero]
      exact readConstants_nil (k + 1 + j)
    · obtain ⟨c', r', hr, p1, p2⟩ := readConstant_take buf L c b1 h1 (by omega)
      rw [show k + 1 + j + 1 = (k + j + 1) + 1 by omega, readConstants_succ_of _ _ c' r' hr]
      by_cases hcase : b1 ≠ [] ∧ buf.length - b1.length ≤ L
      · rw [(p1 hcase).2, ih b1 cs' (L - (buf.length - b1.length)) h2 (by omega)]
      · rw [p2 hcase, readConstants_nil (k + j)]

/-- The pool loop on a buffer cut after the constants it reads gives the same
constants, as long as the whole buffer held more. -/
theorem readConstants_take_stable (k : Nat) (buf : List Nat) (cs : List Constant)
    (rest : List Nat) (L : Nat)
    (h : readConstants k buf = .ok (cs, rest)) (hne : rest ≠ [])
    (hL : buf.length - rest.length ≤ L) :
    readConstants k (buf.take L) = .ok (cs, rest.take (L - (buf.length - rest.length))) := by
  induction k generalizing buf cs L with
  | zero =>
    simp only [readConstants, Except.ok.injEq, Prod.mk.injEq] at h
    rw [← h.1, ← h.2]
    simp [readConstants]
  | succ k ih =>
    obtain ⟨c, b1, cs', h1, h2, h3⟩ := readConstants_succ_ok k buf cs rest h
    have hl1 := readConstant_left buf c b1 h1
    have hl2 := (readConstants_left k b1 cs' rest h2).1
    have hpos : 0 < rest.length := List.length_pos.mpr hne
    have hb1 : b1 ≠ [] := by
      intro hb
      rw [hb] at hl2
      simp only [List.length_nil] at hl2
      omega
    obtain ⟨c', r', hr, p1, _⟩ := readConstant_take buf L c b1 h1 (by omega)
    obtain ⟨e1, e2⟩ := p1 ⟨hb1, by omega⟩
    subst e1 e2
    rw [readConstants_succ_of _ _ c' _ hr,
      ih b1 cs' (L - (buf.length - b1.length)) h2 (by omega), h3]
    simp only [Except.ok.injEq, Prod.mk.injEq, true_and]
    congr 1
    omega

/-- The last turn of the pool loop, taken apart from the turns before it. -/
theorem readConstants_last (k : Nat) (buf : List Nat) :
    readConstants (k + 1) buf =
      match readConstants k buf with
      | .error e => .error e
      | .ok (cs, r) =>
        match readConstant r with
        | .error e => .error e
        | .ok (c, r2) => .ok (cs ++ [c], r2) := by
  induction k generalizing buf with
  | zero =>
    rw [readConstants_succ]
    simp only [readConstants]
    cases h : readConstant buf with
    | error e => rfl
    | ok v => obtain ⟨c, b1⟩ := v; rfl
  | succ k ih =>
    rw [readConstants_succ (k + 1), readConstants_succ k]
    cases h : readConstant buf with
    | error e => rfl
    | ok v =>
      obtain ⟨c, b1⟩ := v
      simp only
      rw [ih b1]
      cases h2 : readConstants k b1 with
      | error e => rfl
      | ok w =>
        obtain ⟨cs, r⟩ := w
        simp only
        cases h3 : readConstant r with
        | error e => rfl
        | ok u => obtain ⟨c2, r2⟩ := u; rfl

/-- The three ways `ParseClassFile` ends, on a buffer whose header reads are
given: bad magic, a failure of the pool loop, or a class whose pool is what
the loop returned. -/
theorem ParseClassFile_of_header (dat : List Nat) (magic minorVersion majorVersion cnt : Nat)
    (b1 b2 b3 b4 : List Nat) (h1 : readU32 dat = (magic, b1))
    (h2 : readU16 b1 = (minorVersion, b2)) (h3 : readU16 b2 = (majorVersion, b3))
    (h4 : readU16 b3 = (cnt, b4)) :
    (magic ≠ 0xCAFEBABE ∧ ParseClassFile dat = .error .unknownMagic) ∨
    (magic = 0xCAFEBABE ∧
      ∃ e, readConstants (dec16 cnt) b4 = .error e ∧ ParseClassFile dat = .error e) ∨
    (magic = 0xCAFEBABE ∧
      ∃ pool b5 cf, readConstants (dec16 cnt) b4 = .ok (pool, b5) ∧
        ParseClassFile dat = .ok cf ∧ cf.constantPool = pool) := by
  generalize hr : ParseClassFile dat = res
  unfold ParseClassFile at hr
  have k1 : ∀ (a : Nat) (b : List Nat) (f : Nat → List Nat → Except Fault ClassFile),
      readAttribute.match_2 (fun _ => Except Fault ClassFile) (a, b) f = f a b :=
    fun _ _ _ => rfl
  have p1 : ∀ (p : Nat × List Nat) (f : Nat → List Nat → Except Fault ClassFile),
      readAttribute.match_2 (fun _ => Except Fault ClassFile) p f = f p.1 p.2 :=
    fun _ _ => rfl
  have p2 : ∀ (p : List Nat × List Nat) (f : List Nat → List Nat → Except Fault ClassFile),
      readAttribute.match_1 (fun _ => Except Fault ClassFile) p f = f p.1 p.2 :=
    fun _ _ => rfl
  have p3 : ∀ (p : List Field × List Nat) (f : List Field → List Nat → Except Fault ClassFile),
      readFields.match_1 (fun _ => Except Fault ClassFile) p f = f p.1 p.2 :=
    fun _ _ => rfl
  have p4 : ∀ (p : List Method × List Nat)
      (f : List Method → List Nat → Except Fault ClassFile),
      readMethods.match_1 (fun _ => Except Fault ClassFile) p f = f p.1 p.2 :=
    fun _ _ => rfl
  have p5 : ∀ (p : List Attribute × List Nat)
      (f : List Attribute → List Nat → Except Fault ClassFile),
      readAttributes.match_1 (fun _ => Except Fault ClassFile) p f = f p.1 p.2 :=
    fun _ _ => rfl
  have ke : ∀ (e : Fault) (f1 : Fault → Except Fault ClassFile)
      (f2 : List Constant → List Nat → Except Fault ClassFile),
      ParseClassFile.match_1 (fun _ => Except Fault ClassFile) (.error e) f1 f2 = f1 e :=
    fun _ _ _ => rfl
  have ko : ∀ (a : List Constant) (b : List Nat) (f1 : Fault → Except Fault ClassFile)
      (f2 : List Constant → List Nat → Except Fault ClassFile),
      ParseClassFile.match_1 (fun _ => Except Fault ClassFile) (.ok (a, b)) f1 f2 = f2 a b :=
    fun _ _ _ _ => rfl
  generalize @readAttribute.match_2.{1} = M2 at hr k1 p1
  generalize @readAttribute.match_1.{1} = M3 at hr p2
  generalize @readFields.match_1.{1} = M4 at hr p3
  generalize @readMethods.match_1.{1} = M5 at hr p4
  generalize @readAttributes.match_1.{1} = M6 at hr p5
  generalize @ParseClassFile.match_1.{1} = M1 at hr ke ko
  rw [h1, k1] at hr
  by_cases hm : magic = 0xCAFEBABE
  · right
    rw [if_neg (not_not.mpr hm), h2, k1, h3, k1, h4, k1] at hr
    cases hp : readConstants (dec16 cnt) b4 with
    | error e =>
      left
      rw [hp, ke] at hr
      exact ⟨hm, e, rfl, hr.symm⟩
    | ok v =>
      right
      obtain ⟨pool, b5⟩ := v
      rw [hp, ko, p1, p1, p1, p1, p2, p1, p3, p1, p4, p1, p5] at hr
      exact ⟨hm, pool, b5, _, rfl, hr.symm, rfl⟩
  · left
    rw [if_pos hm] at hr
    exact ⟨hm, hr.symm⟩

/-- The three ways `ParseClassFile` ends: bad magic, a failure of the pool
loop, or a class whose pool is what the loop returned. -/
theorem ParseClassFile_cases (dat : List Nat) :
    ((readU32 dat).1 ≠ 0xCAFEBABE ∧ ParseClassFile dat = .error .unknownMagic) ∨
    ((readU32 dat).1 = 0xCAFEBABE ∧
      ∃ e, readConstants (dec16 (readU16 (readU16 (readU16 (readU32 dat).2).2).2).1)
          (readU16 (readU16 (readU16 (readU32 dat).2).2).2).2 = .error e ∧
        ParseClassFile dat = .error e) ∨
    ((readU32 dat).1 = 0xCAFEBABE ∧
      ∃ pool b5 cf, readConstants (dec16 (readU16 (readU16 (readU16 (readU32 dat).2).2).2).1)
          (readU16 (readU16 (readU16 (readU32 dat).2).2).2).2 = .ok (pool, b5) ∧
        ParseClassFile dat = .ok cf ∧ cf.constantPool = pool) :=
  ParseClassFile_of_header dat _ _ _ _ _ _ _ _ rfl rfl rfl rfl

/-- The header of a buffer of at least 10 bytes, and of its first `L ≥ 10`
bytes: same magic, same pool count, and the bytes after the header cut to
`L - 10`. -/
theorem readHeader_take (dat : List Nat) (L : Nat) (h : 10 ≤ dat.length) (hL : 10 ≤ L) :
    (readU32 (dat.take L)).1 = (readU32 dat).1 ∧
    (readU16 (readU16 (readU16 (readU32 (dat.take L)).2).2).2).1
      = (readU16 (readU16 (readU16 (readU32 dat).2).2).2).1 ∧
    (readU16 (readU16 (readU16 (readU32 (dat.take L)).2).2).2).2
      = (dat.drop 10).take (L - 10) ∧
    (readU16 (readU16 (readU16 (readU32 dat).2).2).2).2 = dat.drop 10 := by
  obtain ⟨m, rfl⟩ : ∃ m, L = m + 10 := ⟨L - 10, by omega⟩
  rcases dat with _ | ⟨a0, _ | ⟨a1, _ | ⟨a2, _ | ⟨a3, _ | ⟨a4, _ | ⟨a5, _ | ⟨a6, _ | ⟨a7,
    _ | ⟨a8, _ | ⟨a9, body⟩⟩⟩⟩⟩⟩⟩⟩⟩⟩
  case cons.cons.cons.cons.cons.cons.cons.cons.cons.cons =>
    simp [readU32, readU16, List.take]
  all_goals simp at h

/-- The header of a buffer of fewer than 10 bytes: the pool count is read
short, so it is 0 and nothing is left. -/
theorem readHeader_short (dat : List Nat) (h : dat.length < 10) :
    readU16 (readU16 (readU16 (readU32 dat).2).2).2 = (0, []) := by
  have l1 := readU32_left dat
  have l2 := readU16_left (readU32 dat).2
  have l3 := readU16_left (readU16 (readU32 dat).2).2
  exact readU16_short _ (by omega)

/-- A buffer of fewer than 10 bytes is not decoded. -/
theorem ParseClassFile_short (dat : List Nat) (h : dat.length < 10) :
    ParseClassFile dat = .error .unknownMagic ∨
    ParseClassFile dat = .error .unknownConstantTag := by
  have hs := readHeader_short dat h
  have hn : readConstants (dec16 (0, ([] : List Nat)).1) (0, ([] : List Nat)).2
      = .error .unknownConstantTag := readConstants_nil 65534
  rcases ParseClassFile_cases dat with ⟨_, h1⟩ | ⟨_, e, h1, h2⟩ | ⟨_, pool, b5, cf, h1, _, _⟩
  · exact Or.inl h1
  · right
    rw [hs, hn] at h1
    rw [h2, ← Except.error.inj h1]
  · rw [hs, hn] at h1
    exact absurd h1 (by simp)

/-- A decoded buffer has the 10 bytes of the header, and the pool loop run on
what follows them returns the pool of the class. -/
theorem ParseClassFile_pool (dat : List Nat) (cf : ClassFile)
    (hok : ParseClassFile dat = .ok cf) :
    10 ≤ dat.length ∧ (readU32 dat).1 = 0xCAFEBABE ∧
    dec16 (readU16 (readU16 (readU16 (readU32 dat).2).2).2).1 = cf.constantPool.length ∧
    ∃ b5, readConstants cf.constantPool.length (dat.drop 10) = .ok (cf.constantPool, b5) := by
  have h10 : 10 ≤ dat.length := by
    by_contra hlt
    rcases ParseClassFile_short dat (by omega) with h | h
    · rw [hok] at h; exact absurd h (by simp)
    · rw [hok] at h; exact absurd h (by simp)
  refine ⟨h10, ?_⟩
  rcases ParseClassFile_cases dat with ⟨_, h1⟩ | ⟨_, e, _, h2⟩ | ⟨hm, pool, b5, cf0, h1, h2, h3⟩
  · rw [hok] at h1; exact absurd h1 (by simp)
  · rw [hok] at h2; exact absurd h2 (by simp)
  · rw [hok] at h2
    have hcf : cf = cf0 := Except.ok.inj h2
    subst hcf
    subst h3
    rw [(readHeader_take dat 10 h10 (Nat.le_refl 10)).2.2.2] at h1
    have hlen := (readConstants_left _ _ _ _ h1).2
    refine ⟨hm, hlen.symm, b5, ?_⟩
    rw [hlen]
    exact h1

/-- Decoding the first `L ≥ 10` bytes of a decoded buffer fails or succeeds
with the pool loop run on the bytes that follow the header. -/
theorem ParseClassFile_take (dat : List Nat) (cf : ClassFile) (L : Nat)
    (hok : ParseClassFile dat = .ok cf) (hL : 10 ≤ L) :
    (∀ e, readConstants cf.constantPool.length ((dat.drop 10).take (L - 10)) = .error e →
      ParseClassFile (dat.take L) = .error e) ∧
    (∀ v, readConstants cf.constantPool.length ((dat.drop 10).take (L - 10)) = .ok v →
      ∃ cf', ParseClassFile (dat.take L) = .ok cf') := by
  obtain ⟨h10, hm, hcnt, _⟩ := ParseClassFile_pool dat cf hok
  obtain ⟨e1, e2, e3, _⟩ := readHeader_take dat L h10 hL
  have hc := ParseClassFile_cases (dat.take L)
  rw [e1, e2, e3, hcnt] at hc
  rcases hc with ⟨hm', _⟩ | ⟨_, e, h1, h2⟩ | ⟨_, pool, b5, cf', h1, h2, _⟩
  · exact absurd hm hm'
  · constructor
    · intro e' he
      rw [h1] at he
      rw [h2, Except.error.inj he]
    · intro v hv
      rw [h1] at hv
      exact absurd hv (by simp)
  · constructor
    · intro e' he
      rw [h1] at he
      exact absurd he (by simp)
    · intro _ _
      exact ⟨cf', h2⟩

/-! ## The claims -/

/-- C1: on a frame whose operand stack is `s ++ [a, b]` with `a`, `b` 32-bit
values (`b` on top), one step of `isub_Op` leaves the stack
`s ++ [(a - b) mod 2^32]` and one step of `imul_Op` leaves it
`s ++ [(a * b) mod 2^32]`; in both cases the elements below are unchanged,
the stack is exactly one element shorter, `pc` has advanced by 1, and locals
and return value are as before. -/
theorem C1_isub_imul (code : List Nat) (f : Frame) (s : List Nat) (a b : Nat)
    (hs : f.stack = s ++ [a, b]) (ha : a < 4294967296) (hb : b < 4294967296) :
    (∃ r : Nat, (r : Int) = ((a : Int) - (b : Int)) % 4294967296 ∧
      isub_Op code f = .ok { f with stack := s ++ [r], pc := f.pc + 1 } ∧
      (s ++ [r]).length + 1 = f.stack.length) ∧
    (imul_Op code f = .ok { f with stack := s ++ [(a * b) % 4294967296], pc := f.pc + 1 } ∧
      (s ++ [(a * b) % 4294967296]).length + 1 = f.stack.length) := by
  refine ⟨⟨sub32 a b, sub32_eq a b ha hb, isub_Op_two code f s a b hs, ?_⟩, ?_, ?_⟩
  · simp [hs]
  · exact imul_Op_two code f s a b hs
  · simp [hs]

/-- Witness of C1: the stack `[9, 5, 3]`, on which `isub` leaves `[9, 2]`. -/
theorem C1_isub_imul_witness :
    (∃ r : Nat, (r : Int) = (((5 : Nat) : Int) - ((3 : Nat) : Int)) % 4294967296 ∧
      isub_Op [0x64] ⟨0, [9, 5, 3], [], 0⟩
        = .ok { (⟨0, [9, 5, 3], [], 0⟩ : Frame) with stack := [9] ++ [r], pc := 0 + 1 } ∧
      ([9] ++ [r]).length + 1 = [9, 5, 3].length) ∧
    (imul_Op [0x64] ⟨0, [9, 5, 3], [], 0⟩
        = .ok { (⟨0, [9, 5, 3], [], 0⟩ : Frame) with
                stack := [9] ++ [(5 * 3) % 4294967296], pc := 0 + 1 } ∧
      ([9] ++ [(5 * 3) % 4294967296]).length + 1 = [9, 5, 3].length) :=
  C1_isub_imul [0x64] ⟨0, [9, 5, 3], [], 0⟩ [9] 5 3 rfl (by decide) (by decide)

/-- C2: `bipush_Op` does not sign-extend its operand.  With the operand byte
`0xFF` (the constant -1) it pushes 255 and not `0xFFFFFF00 + 0xFF`; `pc`
advances by 2. -/
theorem C2_bipush_zero_extends :
    bipush_Op [0x10, 0xFF] ⟨0, [], [], 0⟩ = .ok ⟨2, [0xFF], [], 0⟩ ∧
    bipush_Op [0x10, 0xFF] ⟨0, [], [], 0⟩ ≠ .ok ⟨2, [0xFFFFFF00 + 0xFF], [], 0⟩ := by
  decide

/-- C3: `invokestatic_Op` hands the arguments to the callee in reverse.  The
caller `bipush 5; bipush 3; invokestatic g; ireturn`, with `g : (II)I` of body
`iload_0; ireturn`, reaches the call with the stack `[5, 3]`; the callee's
locals are `[3, 5]`, not `[5, 3]`, and the run returns 3. -/
theorem C3_invokestatic_args_reversed :
    step (fun _ _ _ => .ok 0) sampleLoader sampleClass [0x10, 5] ⟨0, [], [], 0⟩
      = .ok ⟨2, [5], [], 0⟩ ∧
    step (fun _ _ _ => .ok 0) sampleLoader sampleClass [0x10, 5, 0x10, 3] ⟨2, [5], [], 0⟩
      = .ok ⟨4, [5, 3], [], 0⟩ ∧
    prepareInvoke sampleLoader sampleClass [0x10, 5, 0x10, 3, 0xb8, 0, 11, 0xac]
        ⟨4, [5, 3], [], 0⟩
      = .ok ⟨sampleClass, some sampleG, strI, [3, 5], []⟩ ∧
    ProcessInstruction sampleLoader 5 sampleClass
        (some (methodWithCode [0x10, 5, 0x10, 3, 0xb8, 0, 11, 0xac])) []
      = .ok 3 := by
  decide

/-- C4: an `invokestatic` at `pc` whose method reference resolves to a
registered class and to a method of it with descriptor `(I)I`, on a caller
stack `s ++ [x]`: if the callee run with locals `[x]` returns `r`, the
instruction leaves the caller's stack `s ++ [r]` (one value popped, one
pushed, the elements of `s` unchanged, the height as before) and `pc`
advanced by 3. -/
theorem C4_invokestatic_I_I (cl : ClassLoader) (self : ClassFile) (code : List Nat)
    (f : Frame) (fuel hi lo : Nat) (rest : List Nat) (c : Constant)
    (className methodName : GoString) (target : ClassFile) (m : Method)
    (s : List Nat) (x r : Nat)
    (hcode : code.drop f.pc = 0xb8 :: hi :: lo :: rest)
    (hc : self.getConstant (hi * 256 + lo) = .ok c)
    (href : c.getMethodRef self = .ok (className, methodName, [40, 73, 41, 73]))
    (hclass : cl.FindClass className = .ok target)
    (hmethod : target.FindMethod methodName [40, 73, 41, 73] = .ok (some m))
    (hs : f.stack = s ++ [x])
    (hcall : ProcessInstruction cl fuel target (some m) [x] = .ok r) :
    invokestatic_Op (ProcessInstruction cl fuel) cl self code f
      = .ok { f with stack := s ++ [r], pc := f.pc + 3 } ∧
    step (ProcessInstruction cl fuel) cl self code f
      = .ok { f with stack := s ++ [r], pc := f.pc + 3 } ∧
    (s ++ [r]).length = f.stack.length := by
  have hop : index code f.pc = .ok 0xb8 := index_of_drop code f.pc _ _ hcode
  have hoff : code.drop (f.pc + 1) = hi :: lo :: rest := drop_succ_of_drop code f.pc _ _ hcode
  have hdesc : ParseDescriptor [40, 73, 41, 73] = .ok (strI, [strI]) := by decide
  have hargs : collectArgs f.stack 0 1 = .ok [x] := by
    rw [hs]
    exact collectArgs_top s [x]
  have hprep : prepareInvoke cl self code f = .ok ⟨target, some m, strI, [x], s⟩ := by
    unfold prepareInvoke
    rw [hoff]
    simp only [Uint16, bind, Except.bind, hc, href, hclass, hmethod, hdesc, List.length_cons,
      List.length_nil, hargs, pure, Except.pure]
    simp [hs]
  have hinv : invokestatic_Op (ProcessInstruction cl fuel) cl self code f
      = .ok { f with stack := s ++ [r], pc := f.pc + 3 } := by
    unfold invokestatic_Op
    rw [hprep]
    simp only [bind, Except.bind, hcall]
    simp [strI, pure, Except.pure]
  refine ⟨hinv, ?_, by simp [hs]⟩
  unfold step
  rw [hop]
  simp only [bind, Except.bind]
  simpa using hinv

/-- Witness of C4: in `sampleClass`, `invokestatic f` on the stack `[9, 7]`
leaves `[9, 7]`, the callee `f` returning its argument. -/
theorem C4_invokestatic_I_I_witness :
    invokestatic_Op (ProcessInstruction sampleLoader 5) sampleLoader sampleClass [0xb8, 0, 6]
        ⟨0, [9, 7], [], 0⟩
      = .ok { (⟨0, [9, 7], [], 0⟩ : Frame) with stack := [9] ++ [7], pc := 0 + 3 } ∧
    step (ProcessInstruction sampleLoader 5) sampleLoader sampleClass [0xb8, 0, 6]
        ⟨0, [9, 7], [], 0⟩
      = .ok { (⟨0, [9, 7], [], 0⟩ : Frame) with stack := [9] ++ [7], pc := 0 + 3 } ∧
    ([9] ++ [7]).length = [9, 7].length :=
  C4_invokestatic_I_I sampleLoader sampleClass [0xb8, 0, 6] ⟨0, [9, 7], [], 0⟩ 5 0 6 []
    ⟨10, [0, 2, 0, 5]⟩ [65] [102] sampleClass sampleF [9] 7 7
    rfl (by decide) (by decide) (by decide) (by decide) rfl (by decide)

/-- C5: on a frame with stack `s ++ [v1, v2]` and `code[pc] = 0xa0` followed by
the operand bytes `hi`, `lo`, `if_icmpne_Op` (and so the step of the
interpreter) removes `v1` and `v2` from the stack and sets `pc` to
`pc + (256 * hi + lo)` when `v1 ≠ v2` and to `pc + 3` when `v1 = v2`; locals
and return value are unchanged. -/
theorem C5_if_icmpne (call : ClassFile → Option Method → List Nat → Except Fault Nat)
    (cl : ClassLoader) (self : ClassFile) (code : List Nat) (f : Frame)
    (s : List Nat) (v1 v2 hi lo : Nat) (rest : List Nat)
    (hcode : code.drop f.pc = 0xa0 :: hi :: lo :: rest)
    (hs : f.stack = s ++ [v1, v2]) :
    if_icmpne_Op code f
      = .ok ⟨if v1 ≠ v2 then f.pc + (256 * hi + lo) else f.pc + 3, s, f.locals, f.returnValue⟩ ∧
    step call cl self code f
      = .ok ⟨if v1 ≠ v2 then f.pc + (256 * hi + lo) else f.pc + 3, s, f.locals,
          f.returnValue⟩ := by
  have hop : index code f.pc = .ok 0xa0 := index_of_drop code f.pc _ _ hcode
  have hoff : code.drop (f.pc + 1) = hi :: lo :: rest := drop_succ_of_drop code f.pc _ _ hcode
  have h1 : index (s ++ [v1, v2]) (s.length + 1) = .ok v2 := by
    have := index_append_cons (s ++ [v1]) v2 []
    simpa using this
  have h2 : index (s ++ [v1, v2]) s.length = .ok v1 := index_append_cons s v1 [v2]
  have e1 : s.length + (0 + 1 + 1) - 1 = s.length + 1 := by omega
  have e2 : s.length + (0 + 1 + 1) - 2 = s.length := by omega
  have n1 : ¬ (s.length + (0 + 1 + 1) < 1) := by omega
  have n2 : ¬ (s.length + (0 + 1 + 1) < 2) := by omega
  have hmain : if_icmpne_Op code f
      = .ok ⟨if v1 ≠ v2 then f.pc + (256 * hi + lo) else f.pc + 3, s, f.locals,
          f.returnValue⟩ := by
    unfold if_icmpne_Op
    rw [hoff, hs]
    simp only [Uint16, bind, Except.bind, List.length_append, List.length_cons,
      List.length_nil, e1, e2, if_neg n1, if_neg n2, h1, h2, pure, Except.pure]
    by_cases hv : v1 = v2
    · simp [hv]
    · simp [hv, Nat.mul_comm]
  refine ⟨hmain, ?_⟩
  unfold step
  rw [hop]
  simp only [bind, Except.bind]
  simpa using hmain

/-- Witness of C5: `if_icmpne +5` on the stack `[9, 1, 2]` branches to 5. -/
theorem C5_if_icmpne_witness :
    if_icmpne_Op [0xa0, 0, 5, 0x04, 0xac, 0xb1] ⟨0, [9, 1, 2], [4], 0⟩
      = .ok ⟨if 1 ≠ 2 then 0 + (256 * 0 + 5) else 0 + 3, [9], [4], 0⟩ ∧
    step (fun _ _ _ => .ok 0) sampleLoader sampleClass [0xa0, 0, 5, 0x04, 0xac, 0xb1]
        ⟨0, [9, 1, 2], [4], 0⟩
      = .ok ⟨if 1 ≠ 2 then 0 + (256 * 0 + 5) else 0 + 3, [9], [4], 0⟩ :=
  C5_if_icmpne (fun _ _ _ => .ok 0) sampleLoader sampleClass [0xa0, 0, 5, 0x04, 0xac, 0xb1]
    ⟨0, [9, 1, 2], [4], 0⟩ [9] 1 2 0 5 [0x04, 0xac, 0xb1] rfl rfl

/-- C6: on a frame with `code[pc] = 0xa7` followed by the operand bytes `hi`,
`lo`, `goto_Op` (and so the step of the interpreter) sets `pc` to
`pc + (256 * hi + lo)`, the offset being read as an unsigned big-endian 16-bit
value, and changes nothing else in the frame.  Consequently every method whose
code is `10 07 a7 00 04 04 ac` (`bipush 7; goto +4; iconst_1; ireturn`) returns
7, whatever the arguments and for every budget of at least 3, and its run
visits the offsets 0, 2 and 6 only: the `iconst_1` at offset 5 is never
executed. -/
theorem C6_goto (call : ClassFile → Option Method → List Nat → Except Fault Nat)
    (cl : ClassLoader) (self : ClassFile) (code : List Nat) (f : Frame)
    (hi lo : Nat) (rest : List Nat) (m : Method) (ca : CodeAttribute) (args : List Nat)
    (k : Nat)
    (hcode : code.drop f.pc = 0xa7 :: hi :: lo :: rest)
    (hget : m.GetCode self = .ok ca)
    (hbody : ca.code = [0x10, 0x07, 0xa7, 0x00, 0x04, 0x04, 0xac]) :
    goto_Op code f = .ok { f with pc := f.pc + (256 * hi + lo) } ∧
    step call cl self code f = .ok { f with pc := f.pc + (256 * hi + lo) } ∧
    ProcessInstruction cl (k + 3) self (some m) args = .ok 7 ∧
    (loopTrace (ProcessInstruction cl (k + 2)) cl self ca.code (k + 3) ⟨0, [], args, 0⟩).map
        Frame.pc = [0, 2, 6, 7] ∧
    runLoop (ProcessInstruction cl (k + 2)) cl self ca.code (k + 3) ⟨0, [], args, 0⟩
      = .ok ⟨7, [], args, 7⟩ := by
  have hop : index code f.pc = .ok 0xa7 := index_of_drop code f.pc _ _ hcode
  have hoff : code.drop (f.pc + 1) = hi :: lo :: rest := drop_succ_of_drop code f.pc _ _ hcode
  have hmain : goto_Op code f = .ok { f with pc := f.pc + (256 * hi + lo) } := by
    unfold goto_Op
    rw [hoff]
    simp [Uint16, bind, Except.bind, pure, Except.pure, Nat.mul_comm]
  have hstep : step call cl self code f = .ok { f with pc := f.pc + (256 * hi + lo) } := by
    unfold step
    rw [hop]
    simp only [bind, Except.bind]
    simpa using hmain
  have s0 : ∀ c, step c cl self [0x10, 0x07, 0xa7, 0x00, 0x04, 0x04, 0xac] ⟨0, [], args, 0⟩
      = .ok ⟨2, [7], args, 0⟩ := fun _ => rfl
  have s1 : ∀ c, step c cl self [0x10, 0x07, 0xa7, 0x00, 0x04, 0x04, 0xac] ⟨2, [7], args, 0⟩
      = .ok ⟨6, [7], args, 0⟩ := fun _ => rfl
  have s2 : ∀ c, step c cl self [0x10, 0x07, 0xa7, 0x00, 0x04, 0x04, 0xac] ⟨6, [7], args, 0⟩
      = .ok ⟨7, [], args, 7⟩ := fun _ => rfl
  have hrun : ∀ c, runLoop c cl self [0x10, 0x07, 0xa7, 0x00, 0x04, 0x04, 0xac] (k + 3)
      ⟨0, [], args, 0⟩ = .ok ⟨7, [], args, 7⟩ := by
    intro c
    simp only [runLoop, s0, s1, s2, bind, Except.bind]
    cases k <;> simp [runLoop]
  have htrace : ∀ c, (loopTrace c cl self [0x10, 0x07, 0xa7, 0x00, 0x04, 0x04, 0xac] (k + 3)
      ⟨0, [], args, 0⟩).map Frame.pc = [0, 2, 6, 7] := by
    intro c
    simp only [loopTrace, s0, s1, s2]
    cases k <;> simp [loopTrace]
  refine ⟨hmain, hstep, ?_, ?_, ?_⟩
  · show ProcessInstruction cl (k + 2 + 1) self (some m) args = .ok 7
    unfold ProcessInstruction
    simp only [hget, bind, Except.bind, hbody]
    rw [show k + 2 + 1 = k + 3 from rfl, hrun]
    rfl
  · rw [hbody]
    exact htrace _
  · rw [hbody]
    exact hrun _

/-- Witness of C6: the method `h` of `sampleClass`, and a `goto +4` at
offset 2. -/
theorem C6_goto_witness :
    goto_Op [0x10, 0x07, 0xa7, 0x00, 0x04, 0x04, 0xac] ⟨2, [7], [], 0⟩
      = .ok { (⟨2, [7], [], 0⟩ : Frame) with pc := 2 + (256 * 0 + 4) } ∧
    step (fun _ _ _ => .ok 0) sampleLoader sampleClass
        [0x10, 0x07, 0xa7, 0x00, 0x04, 0x04, 0xac] ⟨2, [7], [], 0⟩
      = .ok { (⟨2, [7], [], 0⟩ : Frame) with pc := 2 + (256 * 0 + 4) } ∧
    ProcessInstruction sampleLoader (0 + 3) sampleClass (some sampleH) [] = .ok 7 ∧
    (loopTrace (ProcessInstruction sampleLoader (0 + 2)) sampleLoader sampleClass
        (⟨1, 1, [0x10, 0x07, 0xa7, 0x00, 0x04, 0x04, 0xac], [], []⟩ : CodeAttribute).code
        (0 + 3) ⟨0, [], [], 0⟩).map Frame.pc = [0, 2, 6, 7] ∧
    runLoop (ProcessInstruction sampleLoader (0 + 2)) sampleLoader sampleClass
        (⟨1, 1, [0x10, 0x07, 0xa7, 0x00, 0x04, 0x04, 0xac], [], []⟩ : CodeAttribute).code
        (0 + 3) ⟨0, [], [], 0⟩
      = .ok ⟨7, [], [], 7⟩ :=
  C6_goto (fun _ _ _ => .ok 0) sampleLoader sampleClass
    [0x10, 0x07, 0xa7, 0x00, 0x04, 0x04, 0xac] ⟨2, [7], [], 0⟩ 0 4 [0x04, 0xac] sampleH
    ⟨1, 1, [0x10, 0x07, 0xa7, 0x00, 0x04, 0x04, 0xac], [], []⟩ [] 0 rfl (by decide) rfl

/-- C7, as stated, fails: `(I)IX` is not of the form `(`, some `I`, `)I`, and
`ParseDescriptor` accepts it, returning the tag `I` and one argument. -/
theorem C7_trailing_accepted :
    (¬ ∃ n, [40, 73, 41, 73, 88] = 40 :: (List.replicate n 73 ++ [41, 73])) ∧
    ParseDescriptor [40, 73, 41, 73, 88] = .ok (strI, [strI]) := by
  refine ⟨?_, by decide⟩
  rintro ⟨n, h⟩
  have hl := congrArg List.length h
  simp at hl
  obtain rfl : n = 2 := by omega
  simp [List.replicate] at h

/-- C7, amended: `ParseDescriptor` fails exactly on the strings that do not
begin with `(`, zero or more `I`, `)I`; what follows the return symbol is not
looked at.  So it fails on the empty string, on a string not starting with
`(`, on a string without `)`, on an argument symbol other than `I` and on a
return symbol other than `I`. -/
theorem C7_ParseDescriptor_fails_iff (desc : GoString) :
    (∃ e, ParseDescriptor desc = .error e) ↔
      ¬ ∃ n rest, desc = 40 :: (List.replicate n 73 ++ 41 :: 73 :: rest) := by
  constructor
  · rintro ⟨e, he⟩ ⟨n, rest, hd⟩
    have := (ParseDescriptor_ok_iff desc (strI, List.replicate n strI)).mpr ⟨n, rest, hd, rfl⟩
    rw [he] at this
    exact absurd this (by simp)
  · intro hno
    cases hp : ParseDescriptor desc with
    | error e => exact ⟨e, rfl⟩
    | ok r =>
      obtain ⟨n, rest, hd, _⟩ := (ParseDescriptor_ok_iff desc r).mp hp
      exact absurd ⟨n, rest, hd⟩ hno

/-- Witness of C7, amended: the void descriptor `()V` is rejected. -/
theorem C7_ParseDescriptor_fails_iff_witness :
    ∃ e, ParseDescriptor [40, 41, 86] = .error e :=
  (C7_ParseDescriptor_fails_iff [40, 41, 86]).mpr (by
    rintro ⟨n, rest, h⟩
    cases n with
    | zero => simp at h
    | succ n => simp [List.replicate_succ] at h)

/-- C8: for every `n`, `ParseDescriptor` applied to `(`, `n` copies of `I`,
`)I` succeeds and returns the return tag `I` with an argument list of length
exactly `n`, every element of which is `I`. -/
theorem C8_ParseDescriptor_arity (n : Nat) :
    ∃ args : List GoString,
      ParseDescriptor (40 :: (List.replicate n 73 ++ [41, 73])) = .ok ([73], args) ∧
      args.length = n ∧ ∀ a ∈ args, a = [73] := by
  refine ⟨List.replicate n strI, ?_, by simp, ?_⟩
  · exact (ParseDescriptor_ok_iff _ _).mpr ⟨n, [], rfl, rfl⟩
  · intro a ha
    exact (List.mem_replicate.mp ha).2

/-- C9, as stated, fails: `truncatedFile` is `sampleFile` without its last 12
bytes, `sampleFile` is decoded to a class with one method, and the truncated
buffer is decoded too, to the same class with no method; loading it registers
that class under its name `A`. -/
theorem C9_truncated_accepted :
    sampleFile = truncatedFile ++ [0, 1, 0, 9, 0, 1, 0, 1, 0, 0, 0, 0] ∧
    ParseClassFile sampleFile
      = .ok ⟨0xCAFEBABE, 0, 52, [⟨1, [65]⟩, ⟨7, [0, 1]⟩], 0x21, 2, 0, [], [], [⟨9, 1, 1, []⟩], []⟩ ∧
    ParseClassFile truncatedFile
      = .ok ⟨0xCAFEBABE, 0, 52, [⟨1, [65]⟩, ⟨7, [0, 1]⟩], 0x21, 2, 0, [], [], [], []⟩ ∧
    LoadClassByFile ⟨[]⟩ 1 truncatedFile
      = .ok (⟨[([65], ⟨0xCAFEBABE, 0, 52, [⟨1, [65]⟩, ⟨7, [0, 1]⟩], 0x21, 2, 0, [], [], [], []⟩)]⟩,
             ⟨0xCAFEBABE, 0, 52, [⟨1, [65]⟩, ⟨7, [0, 1]⟩], 0x21, 2, 0, [], [], [], []⟩) := by
  decide

/-- C9, amended: let `dat` be a buffer that `ParseClassFile` decodes to a
class `cf`, and `L` a length. Then `dat` has the 10 bytes of the header. When
the constant pool of `cf` is empty, decoding the first `L` bytes of `dat`
fails (bad magic or unknown tag) for `L < 10` and returns a class for
`10 ≤ L`. When the pool is not empty, let `r` be what the pool loop leaves of
the bytes after the header once it has read every entry but the last, so that
`r` starts with the tag byte of the last entry: decoding the first `L` bytes
fails (bad magic or unknown tag) when that tag byte is not among them
(`L + |r| ≤ |dat|`), and returns a class when it is (`|dat| < L + |r|`). -/
theorem C9_truncation (dat : List Nat) (cf : ClassFile) (L : Nat)
    (hok : ParseClassFile dat = .ok cf) :
    10 ≤ dat.length ∧
    (cf.constantPool = [] →
      (L < 10 → ParseClassFile (dat.take L) = .error .unknownMagic ∨
        ParseClassFile (dat.take L) = .error .unknownConstantTag) ∧
      (10 ≤ L → ∃ cf', ParseClassFile (dat.take L) = .ok cf')) ∧
    (cf.constantPool ≠ [] → ∃ cs r,
      readConstants (cf.constantPool.length - 1) (dat.drop 10) = .ok (cs, r) ∧ r ≠ [] ∧
      (L + r.length ≤ dat.length → ParseClassFile (dat.take L) = .error .unknownMagic ∨
        ParseClassFile (dat.take L) = .error .unknownConstantTag) ∧
      (dat.length < L + r.length → ∃ cf', ParseClassFile (dat.take L) = .ok cf')) := by
  obtain ⟨h10, _, _, b5, hrc⟩ := ParseClassFile_pool dat cf hok
  have hshort : L < 10 → ParseClassFile (dat.take L) = .error .unknownMagic ∨
      ParseClassFile (dat.take L) = .error .unknownConstantTag := fun hlt =>
    ParseClassFile_short _ (by rw [List.length_take]; omega)
  refine ⟨h10, ?_, ?_⟩
  · intro hnil
    refine ⟨hshort, fun hL => ?_⟩
    refine (ParseClassFile_take dat cf L hok hL).2 ([], (dat.drop 10).take (L - 10)) ?_
    rw [hnil]
    rfl
  · intro hne
    obtain ⟨k, hk⟩ : ∃ k, cf.constantPool.length = k + 1 :=
      ⟨cf.constantPool.length - 1, by
        have := List.length_pos.mpr hne
        omega⟩
    rw [hk] at hrc
    rw [hk, Nat.add_sub_cancel]
    have hlast := readConstants_last k (dat.drop 10)
    rw [hrc] at hlast
    cases hk1 : readConstants k (dat.drop 10) with
    | error e => rw [hk1] at hlast; exact absurd hlast (by simp)
    | ok v =>
      obtain ⟨cs, r⟩ := v
      rw [hk1] at hlast
      simp only at hlast
      cases r with
      | nil =>
        rw [readConstant_nil] at hlast
        exact absurd hlast (by simp)
      | cons t post =>
        have hlen := (readConstants_left k _ _ _ hk1).1
        simp only [List.length_cons, List.length_drop] at hlen
        refine ⟨cs, t :: post, rfl, by simp, ?_, ?_⟩
        · intro hle
          simp only [List.length_cons] at hle
          by_cases hL : L < 10
          · exact hshort hL
          · right
            refine (ParseClassFile_take dat cf L hok (by omega)).1 _ ?_
            rw [hk]
            exact readConstants_take_fails k (dat.drop 10) cs (t :: post) (L - 10) 0 hk1 (by
              simp only [List.length_cons, List.length_drop]
              omega)
        · intro hgt
          simp only [List.length_cons] at hgt
          have hL : 10 ≤ L := by omega
          have hst := readConstants_take_stable k (dat.drop 10) cs (t :: post) (L - 10) hk1
            (by simp) (by
              simp only [List.length_cons, List.length_drop]
              omega)
          obtain ⟨m, hm⟩ : ∃ m, L - 10 - ((dat.drop 10).length - (t :: post).length) = m + 1 :=
            ⟨L - 10 - ((dat.drop 10).length - (t :: post).length) - 1, by
              simp only [List.length_cons, List.length_drop]
              omega⟩
          rw [hm, List.take_succ_cons] at hst
          cases hc : readConstant (t :: post) with
          | error e => rw [hc] at hlast; exact absurd hlast (by simp)
          | ok w =>
            obtain ⟨w', hw'⟩ := readConstant_ok_of_tag t post (post.take m) w hc
            obtain ⟨c', r'⟩ := w'
            have hl2 := readConstants_last k ((dat.drop 10).take (L - 10))
            rw [hst] at hl2
            simp only at hl2
            rw [hw'] at hl2
            refine (ParseClassFile_take dat cf L hok hL).2 (cs ++ [c'], r') ?_
            rw [hk]
            exact hl2

/-- Witness of C9, amended: `sampleFile` has 39 bytes and a pool of two
entries, the tag of the second being its 15th byte; its first 12 bytes are
not decoded. A header alone with pool count 1 is decoded to a class with an
empty pool; its first 9 bytes are not decoded. -/
theorem C9_truncation_witness :
    ParseClassFile sampleFile
      = .ok ⟨0xCAFEBABE, 0, 52, [⟨1, [65]⟩, ⟨7, [0, 1]⟩], 0x21, 2, 0, [], [], [⟨9, 1, 1, []⟩], []⟩ ∧
    (ParseClassFile (sampleFile.take 12) = .error .unknownMagic ∨
      ParseClassFile (sampleFile.take 12) = .error .unknownConstantTag) ∧
    ParseClassFile [0xCA, 0xFE, 0xBA, 0xBE, 0, 0, 0, 52, 0, 1]
      = .ok ⟨0xCAFEBABE, 0, 52, [], 0, 0, 0, [], [], [], []⟩ ∧
    (ParseClassFile ([0xCA, 0xFE, 0xBA, 0xBE, 0, 0, 0, 52, 0, 1].take 9) = .error .unknownMagic ∨
      ParseClassFile ([0xCA, 0xFE, 0xBA, 0xBE, 0, 0, 0, 52, 0, 1].take 9)
        = .error .unknownConstantTag) := by
  refine ⟨by decide, ?_, by decide,
    ((C9_truncation [0xCA, 0xFE, 0xBA, 0xBE, 0, 0, 0, 52, 0, 1]
      ⟨0xCAFEBABE, 0, 52, [], 0, 0, 0, [], [], [], []⟩ 9 (by decide)).2.1 rfl).1 (by decide)⟩
  obtain ⟨_, _, h⟩ := C9_truncation sampleFile
    ⟨0xCAFEBABE, 0, 52, [⟨1, [65]⟩, ⟨7, [0, 1]⟩], 0x21, 2, 0, [], [], [⟨9, 1, 1, []⟩], []⟩ 12
    (by decide)
  obtain ⟨cs, r, hr, _, hfail, _⟩ := h (by decide)
  have e : readConstants 1 (sampleFile.drop 10)
      = .ok ([⟨1, [65]⟩], sampleFile.drop 14) := by decide
  have hr2 : Except.ok ([⟨1, [65]⟩], sampleFile.drop 14) = Except.ok (cs, r) := e.symm.trans hr
  have hr3 : sampleFile.drop 14 = r := (Prod.mk.inj (Except.ok.inj hr2)).2
  subst hr3
  exact hfail (by decide)

/-- C10: on a buffer that holds a complete constant entry, `readConstant`
returns the constant with the tag read and, as payload, the bytes that follow
the tag (for tag 1, that follow the 16-bit big-endian length), as many as the
table gives for the tag (for tag 1, as the length says), and leaves the buffer
just after them; on every tag outside the table it fails. -/
theorem C10_readConstant (tag n : Nat) (payload rest : List Nat) (hi lo : Nat)
    (text rest2 : List Nat) (other : Nat) (rest3 : List Nat)
    (htable : (tag, n) ∈ [(3, 4), (4, 4), (5, 8), (6, 8), (7, 2), (8, 2), (9, 4), (10, 4),
      (11, 4), (12, 4), (15, 3), (16, 2), (18, 4)])
    (hlen : payload.length = n)
    (htext : text.length = 256 * hi + lo)
    (hother : other ∉ [1, 3, 4, 5, 6, 7, 8, 9, 10, 11, 12, 15, 16, 18]) :
    readConstant (tag :: (payload ++ rest)) = .ok (⟨tag, payload⟩, rest) ∧
    readConstant (1 :: hi :: lo :: (text ++ rest2)) = .ok (⟨1, text⟩, rest2) ∧
    readConstant (other :: rest3) = .error .unknownConstantTag := by
  refine ⟨?_, ?_, ?_⟩
  · have hb : readBytes n (payload ++ rest) = (payload, rest) := by
      rw [← hlen]
      exact readBytes_append payload rest
    simp only [List.mem_cons, Prod.mk.injEq, List.mem_singleton, List.not_mem_nil,
      or_false] at htable
    rcases htable with h | h | h | h | h | h | h | h | h | h | h | h | h <;>
      obtain ⟨rfl, rfl⟩ := h <;>
      simp [readConstant, readU8, constantLength, hb]
  · have hb : readBytes (hi * 256 + lo) (text ++ rest2) = (text, rest2) := by
      rw [Nat.mul_comm, ← htext]
      exact readBytes_append text rest2
    simp [readConstant, readU8, readU16, hb]
  · simp only [List.mem_cons, List.mem_singleton, List.not_mem_nil, or_false, not_or] at hother
    obtain ⟨h1, h3, h4, h5, h6, h7, h8, h9, h10, h11, h12, h15, h16, h18⟩ := hother
    simp [readConstant, readU8, constantLength, h1, h3, h4, h5, h6, h7, h8, h9, h10, h11, h12,
      h15, h16, h18]

/-- Witness of C10: a class entry, the text `AB`, and the tag 2. -/
theorem C10_readConstant_witness :
    readConstant (7 :: ([0, 1] ++ [9])) = .ok (⟨7, [0, 1]⟩, [9]) ∧
    readConstant (1 :: 0 :: 2 :: ([65, 66] ++ [9])) = .ok (⟨1, [65, 66]⟩, [9]) ∧
    readConstant (2 :: [0, 1]) = .error .unknownConstantTag :=
  C10_readConstant 7 2 [0, 1] [9] 0 2 [65, 66] [9] 2 [0, 1] (by decide) rfl rfl (by decide)

/-! ## Constant pool accessors and lookups -/

theorem dec16_eq (i : Nat) (h1 : 1 ≤ i) (h2 : i ≤ 65535) : dec16 i = i - 1 := by
  unfold dec16
  omega

theorem Uint16_of_index (i : Nat) (rest : List Nat) :
    Uint16 (i / 256 :: i % 256 :: rest) = .ok i := by
  simp only [Uint16]
  congr 1
  omega

/-- Reading the entry with the 1-based index `i`. -/
theorem getConstant_of_get (cf : ClassFile) (i : Nat) (c : Constant) (h1 : 1 ≤ i)
    (h2 : i ≤ 65535) (h : cf.constantPool.get? (i - 1) = some c) :
    cf.getConstant i = .ok c := by
  unfold ClassFile.getConstant
  rw [dec16_eq i h1 h2]
  exact (index_eq_ok_iff _ _ _).mpr h

/-- C11: whatever the class and whatever the payload of the entry `c`,
`getClassName` fails when `c.tag ≠ 7`, `getMethodRef` when `c.tag ≠ 10`,
`getString` when `c.tag ≠ 1` and `getNameAndType` when `c.tag ≠ 12`, each with
its own panic; no accessor returns a value on a mismatched tag. -/
theorem C11_accessor_tag_mismatch (parent : ClassFile) (c : Constant) :
    (c.tag ≠ 7 → c.getClassName parent = .error .notClassInfo) ∧
    (c.tag ≠ 10 → c.getMethodRef parent = .error .notMethodRef) ∧
    (c.tag ≠ 1 → c.getString = .error .notUtf8) ∧
    (c.tag ≠ 12 → c.getNameAndType parent = .error .notNameAndType) := by
  refine ⟨?_, ?_, ?_, ?_⟩ <;> intro h
  · simp [Constant.getClassName, h]
  · simp [Constant.getMethodRef, h]
  · simp [Constant.getString, h]
  · simp [Constant.getNameAndType, h]

/-- Witness of C11: an integer entry (tag 3) of `sampleClass` whose payload
would be a valid index pair. -/
theorem C11_accessor_tag_mismatch_witness :
    (⟨3, [0, 2, 0, 5]⟩ : Constant).getClassName sampleClass = .error .notClassInfo ∧
    (⟨3, [0, 2, 0, 5]⟩ : Constant).getMethodRef sampleClass = .error .notMethodRef ∧
    (⟨3, [0, 2, 0, 5]⟩ : Constant).getString = .error .notUtf8 ∧
    (⟨3, [0, 2, 0, 5]⟩ : Constant).getNameAndType sampleClass = .error .notNameAndType :=
  have h := C11_accessor_tag_mismatch sampleClass ⟨3, [0, 2, 0, 5]⟩
  ⟨h.1 (by decide), h.2.1 (by decide), h.2.2.1 (by decide), h.2.2.2 (by decide)⟩

/-- C12: in a class whose pool holds, at 1-based indices, a method ref `m`
with payload `(classIdx, natIdx)`, a class entry at `classIdx` whose name index
`nameIdx` points to the text `C`, and a name-and-type entry at `natIdx` whose
indices `nIdx`, `dIdx` point to the texts `N` and `D`, `getMethodRef` on `m`
returns exactly `(C, N, D)`.  Indices are big-endian 16-bit values and the
index `i` denotes `constantPool[i - 1]`. -/
theorem C12_getMethodRef (cf : ClassFile) (m : Constant)
    (classIdx natIdx nameIdx nIdx dIdx : Nat) (C N D : GoString)
    (hm : m = ⟨10, [classIdx / 256, classIdx % 256, natIdx / 256, natIdx % 256]⟩)
    (hc1 : 1 ≤ classIdx ∧ classIdx ≤ 65535) (hc2 : 1 ≤ natIdx ∧ natIdx ≤ 65535)
    (hc3 : 1 ≤ nameIdx ∧ nameIdx ≤ 65535) (hc4 : 1 ≤ nIdx ∧ nIdx ≤ 65535)
    (hc5 : 1 ≤ dIdx ∧ dIdx ≤ 65535)
    (hclass : cf.constantPool.get? (classIdx - 1)
      = some ⟨7, [nameIdx / 256, nameIdx % 256]⟩)
    (hname : cf.constantPool.get? (nameIdx - 1) = some ⟨1, C⟩)
    (hnat : cf.constantPool.get? (natIdx - 1)
      = some ⟨12, [nIdx / 256, nIdx % 256, dIdx / 256, dIdx % 256]⟩)
    (hN : cf.constantPool.get? (nIdx - 1) = some ⟨1, N⟩)
    (hD : cf.constantPool.get? (dIdx - 1) = some ⟨1, D⟩) :
    m.getMethodRef cf = .ok (C, N, D) := by
  have g1 := getConstant_of_get cf classIdx _ hc1.1 hc1.2 hclass
  have g2 := getConstant_of_get cf nameIdx _ hc3.1 hc3.2 hname
  have g3 := getConstant_of_get cf natIdx _ hc2.1 hc2.2 hnat
  have g4 := getConstant_of_get cf nIdx _ hc4.1 hc4.2 hN
  have g5 := getConstant_of_get cf dIdx _ hc5.1 hc5.2 hD
  have hcn : (⟨7, [nameIdx / 256, nameIdx % 256]⟩ : Constant).getClassName cf = .ok C := by
    simp [Constant.getClassName, Uint16_of_index, g2, Constant.getString, bind, Except.bind]
  have hnt : (⟨12, [nIdx / 256, nIdx % 256, dIdx / 256, dIdx % 256]⟩ :
      Constant).getNameAndType cf = .ok (N, D) := by
    simp [Constant.getNameAndType, Uint16_of_index, g4, g5, Constant.getString, bind,
      Except.bind, pure, Except.pure]
  subst hm
  simp [Constant.getMethodRef, Uint16_of_index, g1, g3, hcn, hnt, bind, Except.bind, pure,
    Except.pure]

/-- Witness of C12: entry 6 of `sampleClass`, the reference to `A.f:(I)I`. -/
theorem C12_getMethodRef_witness :
    (⟨10, [2 / 256, 2 % 256, 5 / 256, 5 % 256]⟩ : Constant).getMethodRef sampleClass
      = .ok ([65], [102], [40, 73, 41, 73]) :=
  C12_getMethodRef sampleClass ⟨10, [2 / 256, 2 % 256, 5 / 256, 5 % 256]⟩ 2 5 1 3 4
    [65] [102] [40, 73, 41, 73] rfl (by decide) (by decide) (by decide) (by decide)
    (by decide) (by decide) (by decide) (by decide) (by decide) (by decide)

/-- The scan of `FindMethod` over methods none of which carries the pair. -/
theorem findMethodFrom_none (cf : ClassFile) (name descriptor : GoString) (ms : List Method)
    (hwf : ∀ m ∈ ms, ∃ n d, m.getMethodName cf = .ok n ∧ m.getDescriptor cf = .ok d)
    (hno : ∀ m ∈ ms, ¬ (m.getMethodName cf = .ok name ∧ m.getDescriptor cf = .ok descriptor)) :
    findMethodFrom cf name descriptor ms = .ok none := by
  induction ms with
  | nil => rfl
  | cons m rest ih =>
    obtain ⟨n, d, hn, hd⟩ := hwf m (List.mem_cons_self _ _)
    have ih2 := ih (fun x hx => hwf x (List.mem_cons_of_mem _ hx))
      (fun x hx => hno x (List.mem_cons_of_mem _ hx))
    have hm := hno m (List.mem_cons_self _ _)
    rw [findMethodFrom, hn]
    simp only [bind, Except.bind]
    by_cases e1 : n = name
    · rw [if_pos e1, hd]
      simp only
      have e2 : ¬ d = descriptor := fun e2 => hm ⟨by rw [hn, e1], by rw [hd, e2]⟩
      rw [if_neg e2, ih2]
    · rw [if_neg e1, ih2]

/-- The scan of `FindMethod` stops at the first method that carries the pair. -/
theorem findMethodFrom_first (cf : ClassFile) (name descriptor : GoString)
    (pre : List Method) (m : Method) (post : List Method)
    (hwf : ∀ x ∈ pre, ∃ n d, x.getMethodName cf = .ok n ∧ x.getDescriptor cf = .ok d)
    (hno : ∀ x ∈ pre, ¬ (x.getMethodName cf = .ok name ∧ x.getDescriptor cf = .ok descriptor))
    (hn : m.getMethodName cf = .ok name) (hd : m.getDescriptor cf = .ok descriptor) :
    findMethodFrom cf name descriptor (pre ++ m :: post) = .ok (some m) := by
  induction pre with
  | nil =>
    simp [findMethodFrom, hn, hd, bind, Except.bind, pure, Except.pure]
  | cons x rest ih =>
    obtain ⟨n, d, hxn, hxd⟩ := hwf x (List.mem_cons_self _ _)
    have ih2 := ih (fun y hy => hwf y (List.mem_cons_of_mem _ hy))
      (fun y hy => hno y (List.mem_cons_of_mem _ hy))
    have hx := hno x (List.mem_cons_self _ _)
    rw [List.cons_append, findMethodFrom, hxn]
    simp only [bind, Except.bind]
    by_cases e1 : n = name
    · rw [if_pos e1, hxd]
      simp only
      have e2 : ¬ d = descriptor := fun e2 => hx ⟨by rw [hxn, e1], by rw [hxd, e2]⟩
      rw [if_neg e2, ih2]
    · rw [if_neg e1, ih2]

/-- C13, as stated, fails: `danglingFile` is decoded to a class whose one
method has the name index 0; no method of that class carries the pair
`<clinit>`, `()V`, and `FindMethod` panics instead of returning `nil`. -/
theorem C13_FindMethod_panics :
    ParseClassFile danglingFile = .ok danglingClass ∧
    (∀ m ∈ danglingClass.methods,
      ¬ (m.getMethodName danglingClass = .ok strClinit ∧
         m.getDescriptor danglingClass = .ok strVoidDescriptor)) ∧
    danglingClass.FindMethod strClinit strVoidDescriptor = .error .indexOutOfRange := by
  decide

/-- C13, amended: in a class each of whose methods has a name index and a
descriptor index that point to Utf8 entries, `FindMethod` returns `nil`, and
no error, for every pair that no method carries, and returns the first method
in declaration order that carries the pair when there is one. -/
theorem C13_FindMethod (cf : ClassFile) (name descriptor : GoString)
    (hwf : ∀ m ∈ cf.methods, ∃ n d, m.getMethodName cf = .ok n ∧ m.getDescriptor cf = .ok d) :
    ((∀ m ∈ cf.methods,
        ¬ (m.getMethodName cf = .ok name ∧ m.getDescriptor cf = .ok descriptor)) →
      cf.FindMethod name descriptor = .ok none) ∧
    (∀ pre m post, cf.methods = pre ++ m :: post →
      m.getMethodName cf = .ok name → m.getDescriptor cf = .ok descriptor →
      (∀ x ∈ pre, ¬ (x.getMethodName cf = .ok name ∧ x.getDescriptor cf = .ok descriptor)) →
      cf.FindMethod name descriptor = .ok (some m)) := by
  constructor
  · intro hno
    exact findMethodFrom_none cf name descriptor cf.methods hwf hno
  · intro pre m post hsplit hn hd hno
    unfold ClassFile.FindMethod
    rw [hsplit]
    refine findMethodFrom_first cf name descriptor pre m post ?_ hno hn hd
    intro x hx
    exact hwf x (by rw [hsplit]; exact List.mem_append_left _ hx)

/-- The methods of `sampleClass` have names and descriptors. -/
theorem sampleClass_methods_named :
    ∀ m ∈ sampleClass.methods,
      ∃ n d, m.getMethodName sampleClass = .ok n ∧ m.getDescriptor sampleClass = .ok d := by
  intro m hm
  simp only [sampleClass, List.mem_cons, List.mem_singleton, List.not_mem_nil, or_false] at hm
  rcases hm with rfl | rfl | rfl <;> exact ⟨_, _, rfl, rfl⟩

/-- Witness of C13, amended: `sampleClass` has no `<clinit>`, and its second
method is the first one named `g` of type `(II)I`. -/
theorem C13_FindMethod_witness :
    sampleClass.FindMethod strClinit strVoidDescriptor = .ok none ∧
    sampleClass.FindMethod [103] [40, 73, 73, 41, 73] = .ok (some sampleG) :=
  ⟨(C13_FindMethod sampleClass strClinit strVoidDescriptor sampleClass_methods_named).1
      (by decide),
   (C13_FindMethod sampleClass [103] [40, 73, 73, 41, 73] sampleClass_methods_named).2
      [sampleF] sampleG [sampleH] rfl (by decide) (by decide) (by decide)⟩

/-! ## The interpreter loop -/

theorem step_pop (call : ClassFile → Option Method → List Nat → Except Fault Nat)
    (cl : ClassLoader) (self : ClassFile) (code : List Nat) (f : Frame)
    (h : index code f.pc = .ok 0x57) : step call cl self code f = pop_Op code f := by
  unfold step
  rw [h]
  rfl

theorem step_ireturn (call : ClassFile → Option Method → List Nat → Except Fault Nat)
    (cl : ClassLoader) (self : ClassFile) (code : List Nat) (f : Frame)
    (h : index code f.pc = .ok 0xac) : step call cl self code f = ireturn_Op code f := by
  unfold step
  rw [h]
  rfl

theorem step_isub (call : ClassFile → Option Method → List Nat → Except Fault Nat)
    (cl : ClassLoader) (self : ClassFile) (code : List Nat) (f : Frame)
    (h : index code f.pc = .ok 0x64) : step call cl self code f = isub_Op code f := by
  unfold step
  rw [h]
  rfl

theorem step_imul (call : ClassFile → Option Method → List Nat → Except Fault Nat)
    (cl : ClassLoader) (self : ClassFile) (code : List Nat) (f : Frame)
    (h : index code f.pc = .ok 0x68) : step call cl self code f = imul_Op code f := by
  unfold step
  rw [h]
  rfl

theorem step_if_icmpne (call : ClassFile → Option Method → List Nat → Except Fault Nat)
    (cl : ClassLoader) (self : ClassFile) (code : List Nat) (f : Frame)
    (h : index code f.pc = .ok 0xa0) : step call cl self code f = if_icmpne_Op code f := by
  unfold step
  rw [h]
  rfl

theorem step_goto (call : ClassFile → Option Method → List Nat → Except Fault Nat)
    (cl : ClassLoader) (self : ClassFile) (code : List Nat) (f : Frame)
    (h : index code f.pc = .ok 0xa7) : step call cl self code f = goto_Op code f := by
  unfold step
  rw [h]
  rfl

theorem step_invokestatic (call : ClassFile → Option Method → List Nat → Except Fault Nat)
    (cl : ClassLoader) (self : ClassFile) (code : List Nat) (f : Frame)
    (h : index code f.pc = .ok 0xb8) :
    step call cl self code f = invokestatic_Op call cl self code f := by
  unfold step
  rw [h]
  rfl

/-- The faults of the scan of `FindMethod`. -/
theorem findMethodFrom_error (cf : ClassFile) (name descriptor : GoString) (ms : List Method)
    (e : Fault) (h : findMethodFrom cf name descriptor ms = .error e) :
    e = .indexOutOfRange ∨ e = .notUtf8 := by
  have hget : ∀ (i : Nat) (e : Fault),
      (do let c ← index cf.constantPool i; c.getString : Except Fault GoString) = .error e →
      e = .indexOutOfRange ∨ e = .notUtf8 := by
    intro i e he
    unfold index at he
    cases hg : cf.constantPool.get? i with
    | none => rw [hg] at he; simp [bind, Except.bind] at he; exact Or.inl he.symm
    | some c =>
      rw [hg] at he
      simp only [bind, Except.bind, Constant.getString] at he
      by_cases ht : c.tag = 1
      · simp [ht] at he
      · simp [ht] at he; exact Or.inr he.symm
  induction ms with
  | nil => simp [findMethodFrom] at h
  | cons m rest ih =>
    rw [findMethodFrom] at h
    cases hn : m.getMethodName cf with
    | error e1 =>
      rw [hn] at h
      simp only [bind, Except.bind, Except.error.injEq] at h
      subst h
      exact hget _ _ hn
    | ok n =>
      rw [hn] at h
      simp only [bind, Except.bind] at h
      by_cases e1 : n = name
      · rw [if_pos e1] at h
        cases hd : m.getDescriptor cf with
        | error e2 =>
          rw [hd] at h
          simp only [Except.error.injEq] at h
          subst h
          exact hget _ _ hd
        | ok d =>
          rw [hd] at h
          simp only at h
          by_cases e2 : d = descriptor
          · simp [e2, pure, Except.pure] at h
          · rw [if_neg e2] at h
            exact ih h
      · rw [if_neg e1] at h
        exact ih h

/-- The loop that fills `args` fails when the stack is too short. -/
theorem collectArgs_short (stack : List Nat) (n i : Nat) (hi : i ≤ stack.length)
    (h : stack.length < i + n) :
    collectArgs stack i n = .error .indexOutOfRange := by
  induction n generalizing i with
  | zero => omega
  | succ n ih =>
    rw [collectArgs]
    by_cases hs : stack.length < i + 1
    · rw [if_pos hs]
    · rw [if_neg hs]
      have hlt : stack.length - i - 1 < stack.length := by omega
      have hidx : index stack (stack.length - i - 1)
          = .ok (stack.get ⟨stack.length - i - 1, hlt⟩) := by
        unfold index
        rw [List.get?_eq_get hlt]
      rw [hidx]
      simp only [bind, Except.bind]
      rw [ih (i + 1) (by omega) (by omega)]

theorem Uint16_error (b : List Nat) (e : Fault) (h : Uint16 b = .error e) :
    e = .indexOutOfRange := by
  unfold Uint16 at h
  split at h
  · simp at h
  · simp only [Except.error.injEq] at h
    exact h.symm

theorem FindClass_error (cl : ClassLoader) (className : GoString) (e : Fault)
    (h : cl.FindClass className = .error e) : e = .classNotLoaded := by
  unfold ClassLoader.FindClass at h
  split at h
  · simp at h
  · simp only [Except.error.injEq] at h
    exact h.symm

theorem pop_Op_empty (code : List Nat) (f : Frame) (h : f.stack.length < 1) :
    pop_Op code f = .error .indexOutOfRange := by
  simp [pop_Op, h]

theorem ireturn_Op_empty (code : List Nat) (f : Frame) (h : f.stack.length < 1) :
    ireturn_Op code f = .error .indexOutOfRange := by
  simp [ireturn_Op, h]

theorem isub_Op_short (code : List Nat) (f : Frame) (h : f.stack.length < 2) :
    isub_Op code f = .error .indexOutOfRange := by
  unfold isub_Op
  by_cases h1 : f.stack.length < 1
  · rw [if_pos h1]
  · rw [if_neg h1]
    cases hv : index f.stack (f.stack.length - 1) with
    | error e =>
      have hlt : f.stack.length - 1 < f.stack.length := by omega
      unfold index at hv
      rw [List.get?_eq_get hlt] at hv
      simp at hv
    | ok v => simp [bind, Except.bind, h]

theorem imul_Op_short (code : List Nat) (f : Frame) (h : f.stack.length < 2) :
    imul_Op code f = .error .indexOutOfRange := by
  unfold imul_Op
  by_cases h1 : f.stack.length < 1
  · rw [if_pos h1]
  · rw [if_neg h1]
    cases hv : index f.stack (f.stack.length - 1) with
    | error e =>
      have hlt : f.stack.length - 1 < f.stack.length := by omega
      unfold index at hv
      rw [List.get?_eq_get hlt] at hv
      simp at hv
    | ok v => simp [bind, Except.bind, h]

theorem if_icmpne_Op_short (code : List Nat) (f : Frame) (h : f.stack.length < 2) :
    if_icmpne_Op code f = .error .indexOutOfRange := by
  unfold if_icmpne_Op
  cases ho : Uint16 (code.drop (f.pc + 1)) with
  | error e =>
    rw [Uint16_error _ _ ho]
    rfl
  | ok offset =>
    simp only [bind, Except.bind]
    by_cases h1 : f.stack.length < 1
    · rw [if_pos h1]
    · rw [if_neg h1]
      cases hv : index f.stack (f.stack.length - 1) with
      | error e =>
        have hlt : f.stack.length - 1 < f.stack.length := by omega
        unfold index at hv
        rw [List.get?_eq_get hlt] at hv
        simp at hv
      | ok v => simp [h]

/-- When the reference resolves and the descriptor parses, `invokestatic_Op`
on a stack shorter than the argument list stops before the call. -/
theorem prepareInvoke_short (cl : ClassLoader) (self : ClassFile) (code : List Nat) (f : Frame)
    (idx : Nat) (c : Constant) (className methodName descriptor retDesc : GoString)
    (argsDesc : List GoString)
    (hidx : Uint16 (code.drop (f.pc + 1)) = .ok idx)
    (hc : self.getConstant idx = .ok c)
    (href : c.getMethodRef self = .ok (className, methodName, descriptor))
    (hdesc : ParseDescriptor descriptor = .ok (retDesc, argsDesc))
    (hshort : f.stack.length < argsDesc.length) :
    ∃ e, prepareInvoke cl self code f = .error e ∧
      (e = .classNotLoaded ∨ e = .indexOutOfRange ∨ e = .notUtf8) := by
  unfold prepareInvoke
  rw [hidx]
  simp only [bind, Except.bind, hc, href]
  cases hcl : cl.FindClass className with
  | error e => exact ⟨e, rfl, Or.inl (FindClass_error _ _ _ hcl)⟩
  | ok target =>
    simp only
    cases hm : target.FindMethod methodName descriptor with
    | error e =>
      refine ⟨e, rfl, Or.inr ?_⟩
      exact findMethodFrom_error target methodName descriptor target.methods e hm
    | ok method =>
      simp only [hdesc]
      rw [collectArgs_short f.stack argsDesc.length 0 (Nat.zero_le _) (by omega)]
      exact ⟨.indexOutOfRange, rfl, Or.inr (Or.inl rfl)⟩

/-- C14: a step that needs more operands than the stack holds fails and
yields no frame.  `pop_Op` and `ireturn_Op` on an empty stack, and `isub_Op`,
`imul_Op` and `if_icmpne_Op` on a stack of fewer than two elements, stop with
the index-out-of-range panic; `invokestatic_Op` on a stack with fewer
elements than the descriptor has arguments stops with a panic (class not
loaded, index out of range or not-a-UTF-8) before the callee is run.  The
same holds of the interpreter step at these opcodes. -/
theorem C14_stack_underflow (call : ClassFile → Option Method → List Nat → Except Fault Nat)
    (cl : ClassLoader) (self : ClassFile) (code : List Nat) (f : Frame) :
    (f.stack.length < 1 →
      pop_Op code f = .error .indexOutOfRange ∧
      ireturn_Op code f = .error .indexOutOfRange ∧
      (index code f.pc = .ok 0x57 ∨ index code f.pc = .ok 0xac →
        step call cl self code f = .error .indexOutOfRange)) ∧
    (f.stack.length < 2 →
      isub_Op code f = .error .indexOutOfRange ∧
      imul_Op code f = .error .indexOutOfRange ∧
      if_icmpne_Op code f = .error .indexOutOfRange ∧
      (index code f.pc = .ok 0x64 ∨ index code f.pc = .ok 0x68 ∨ index code f.pc = .ok 0xa0 →
        step call cl self code f = .error .indexOutOfRange)) ∧
    (∀ (idx : Nat) (c : Constant) (className methodName descriptor retDesc : GoString)
        (argsDesc : List GoString),
      Uint16 (code.drop (f.pc + 1)) = .ok idx →
      self.getConstant idx = .ok c →
      c.getMethodRef self = .ok (className, methodName, descriptor) →
      ParseDescriptor descriptor = .ok (retDesc, argsDesc) →
      f.stack.length < argsDesc.length →
      ∃ e, invokestatic_Op call cl self code f = .error e ∧
        (e = .classNotLoaded ∨ e = .indexOutOfRange ∨ e = .notUtf8) ∧
        (index code f.pc = .ok 0xb8 → step call cl self code f = .error e)) := by
  refine ⟨?_, ?_, ?_⟩
  · intro h
    refine ⟨pop_Op_empty code f h, ireturn_Op_empty code f h, ?_⟩
    rintro (hop | hop)
    · rw [step_pop call cl self code f hop]
      exact pop_Op_empty code f h
    · rw [step_ireturn call cl self code f hop]
      exact ireturn_Op_empty code f h
  · intro h
    refine ⟨isub_Op_short code f h, imul_Op_short code f h, if_icmpne_Op_short code f h, ?_⟩
    rintro (hop | hop | hop)
    · rw [step_isub call cl self code f hop]
      exact isub_Op_short code f h
    · rw [step_imul call cl self code f hop]
      exact imul_Op_short code f h
    · rw [step_if_icmpne call cl self code f hop]
      exact if_icmpne_Op_short code f h
  · intro idx c className methodName descriptor retDesc argsDesc hidx hc href hdesc hshort
    obtain ⟨e, he, hkind⟩ := prepareInvoke_short cl self code f idx c className methodName
      descriptor retDesc argsDesc hidx hc href hdesc hshort
    have hinv : invokestatic_Op call cl self code f = .error e := by
      unfold invokestatic_Op
      rw [he]
      rfl
    refine ⟨e, hinv, hkind, ?_⟩
    intro hop
    rw [step_invokestatic call cl self code f hop]
    exact hinv

/-- Witness of C14: an empty stack under `pop`, a stack of one element under
`isub`, and an empty stack under an `invokestatic` of `f : (I)I` in
`sampleClass`. -/
theorem C14_stack_underflow_witness :
    (pop_Op [0x57] ⟨0, [], [], 0⟩ = .error .indexOutOfRange ∧
      ireturn_Op [0x57] ⟨0, [], [], 0⟩ = .error .indexOutOfRange ∧
      step (fun _ _ _ => .ok 0) sampleLoader sampleClass [0x57] ⟨0, [], [], 0⟩
        = .error .indexOutOfRange) ∧
    (isub_Op [0x64] ⟨0, [5], [], 0⟩ = .error .indexOutOfRange ∧
      imul_Op [0x64] ⟨0, [5], [], 0⟩ = .error .indexOutOfRange ∧
      if_icmpne_Op [0x64] ⟨0, [5], [], 0⟩ = .error .indexOutOfRange ∧
      step (fun _ _ _ => .ok 0) sampleLoader sampleClass [0x64] ⟨0, [5], [], 0⟩
        = .error .indexOutOfRange) ∧
    (∃ e, invokestatic_Op (fun _ _ _ => .ok 0) sampleLoader sampleClass [0xb8, 0, 6]
          ⟨0, [], [], 0⟩ = .error e ∧
        (e = .classNotLoaded ∨ e = .indexOutOfRange ∨ e = .notUtf8) ∧
        step (fun _ _ _ => .ok 0) sampleLoader sampleClass [0xb8, 0, 6] ⟨0, [], [], 0⟩
          = .error e) := by
  have h1 := (C14_stack_underflow (fun _ _ _ => .ok 0) sampleLoader sampleClass [0x57]
    ⟨0, [], [], 0⟩).1 (by decide)
  have h2 := (C14_stack_underflow (fun _ _ _ => .ok 0) sampleLoader sampleClass [0x64]
    ⟨0, [5], [], 0⟩).2.1 (by decide)
  obtain ⟨e, h3, h4, h5⟩ := (C14_stack_underflow (fun _ _ _ => .ok 0) sampleLoader sampleClass
    [0xb8, 0, 6] ⟨0, [], [], 0⟩).2.2 6 ⟨10, [0, 2, 0, 5]⟩ [65] [102] [40, 73, 41, 73] strI
    [strI] (by decide) (by decide) (by decide) (by decide) (by decide)
  exact ⟨⟨h1.1, h1.2.1, h1.2.2 (Or.inl (by decide))⟩,
    ⟨h2.1, h2.2.1, h2.2.2.1, h2.2.2.2 (Or.inl (by decide))⟩,
    ⟨e, h3, h4, h5 (by decide)⟩⟩

theorem index_lt {α : Type} (xs : List α) (i : Nat) (x : α) (h : index xs i = .ok x) :
    i < xs.length := by
  unfold index at h
  cases hg : xs.get? i with
  | none => rw [hg] at h; simp at h
  | some y =>
    by_contra hlt
    rw [List.get?_eq_none.mpr (by omega)] at hg
    simp at hg

/-- A step that fails at a frame of the run makes the whole loop fail. -/
theorem runLoop_error_of_trace (call : ClassFile → Option Method → List Nat → Except Fault Nat)
    (cl : ClassLoader) (self : ClassFile) (code : List Nat) (n j : Nat) (f0 f : Frame)
    (e : Fault) (hmem : f ∈ loopTrace call cl self code n f0) (hpc : f.pc < code.length)
    (hstep : step call cl self code f = .error e) :
    runLoop call cl self code (n + j + 1) f0 = .error e := by
  induction n generalizing f0 with
  | zero =>
    simp only [loopTrace, List.mem_singleton] at hmem
    subst hmem
    rw [runLoop, if_pos hpc, hstep]
    rfl
  | succ n ih =>
    rw [loopTrace] at hmem
    by_cases h0 : f0.pc < code.length
    · rw [if_pos h0] at hmem
      rw [runLoop, if_pos h0]
      cases hs : step call cl self code f0 with
      | error e0 =>
        rw [hs] at hmem
        simp only [List.mem_singleton] at hmem
        subst hmem
        rw [hs] at hstep
        rw [hstep]
        rfl
      | ok next =>
        rw [hs] at hmem
        simp only [List.mem_cons] at hmem
        simp only [bind, Except.bind]
        rcases hmem with hmem | hmem
        · subst hmem
          rw [hs] at hstep
          simp at hstep
        · have := ih next hmem
          rw [show n + 1 + j = n + j + 1 by omega]
          exact this
    · rw [if_neg h0] at hmem
      simp only [List.mem_singleton] at hmem
      subst hmem
      exact absurd hpc h0

/-- The record of the run ends at a frame whose step fails. -/
theorem loopTrace_of_error (call : ClassFile → Option Method → List Nat → Except Fault Nat)
    (cl : ClassLoader) (self : ClassFile) (code : List Nat) (k : Nat) (f : Frame) (e : Fault)
    (hstep : step call cl self code f = .error e) :
    loopTrace call cl self code k f = [f] := by
  cases k with
  | zero => rfl
  | succ k =>
    rw [loopTrace, hstep]
    simp

/-- The run of a method whose loop meets a failing step fails likewise. -/
theorem ProcessInstruction_error_of_trace (cl : ClassLoader) (parent : ClassFile) (m : Method)
    (ca : CodeAttribute) (args : List Nat) (fuel n : Nat) (f : Frame) (e : Fault)
    (hget : m.GetCode parent = .ok ca)
    (hmem : f ∈ loopTrace (ProcessInstruction cl fuel) cl parent ca.code n ⟨0, [], args, 0⟩)
    (hn : n ≤ fuel) (hpc : f.pc < ca.code.length)
    (hstep : step (ProcessInstruction cl fuel) cl parent ca.code f = .error e) :
    ProcessInstruction cl (fuel + 1) parent (some m) args = .error e := by
  have hrun := runLoop_error_of_trace (ProcessInstruction cl fuel) cl parent ca.code n
    (fuel - n) ⟨0, [], args, 0⟩ f e hmem hpc hstep
  rw [show n + (fuel - n) + 1 = fuel + 1 by omega] at hrun
  rw [ProcessInstruction]
  simp only [hget, bind, Except.bind, hrun]

/-- C15: when a run of `ProcessInstruction` comes to a frame whose `pc` points
at a byte that is none of the thirteen implemented opcodes, the step fails
with the unimplemented-instruction panic for that byte, no further frame is
produced (the byte is neither skipped nor treated as a no-op), and the run
fails with that panic and returns no value. -/
theorem C15_unimplemented_opcode (cl : ClassLoader) (parent : ClassFile) (m : Method)
    (ca : CodeAttribute) (args : List Nat) (fuel n : Nat) (f : Frame) (op : Nat)
    (hget : m.GetCode parent = .ok ca)
    (hreach : f ∈ loopTrace (ProcessInstruction cl fuel) cl parent ca.code n ⟨0, [], args, 0⟩)
    (hn : n ≤ fuel)
    (hop : index ca.code f.pc = .ok op)
    (hnot : op ∉ [0x04, 0x10, 0x12, 0x1a, 0x57, 0x64, 0x68, 0xa0, 0xa7, 0xac, 0xb1, 0xb2, 0xb8]) :
    step (ProcessInstruction cl fuel) cl parent ca.code f
      = .error (.unimplementedInstruction op) ∧
    (∀ k, loopTrace (ProcessInstruction cl fuel) cl parent ca.code k f = [f]) ∧
    ProcessInstruction cl (fuel + 1) parent (some m) args
      = .error (.unimplementedInstruction op) := by
  have hstep : step (ProcessInstruction cl fuel) cl parent ca.code f
      = .error (.unimplementedInstruction op) := by
    simp only [List.mem_cons, List.mem_singleton, List.not_mem_nil, or_false, not_or] at hnot
    obtain ⟨h1, h2, h3, h4, h5, h6, h7, h8, h9, h10, h11, h12, h13⟩ := hnot
    unfold step
    rw [hop]
    simp only [bind, Except.bind]
    rw [if_neg h1, if_neg h2, if_neg h4, if_neg h5, if_neg h3, if_neg h6, if_neg h7, if_neg h8,
      if_neg h9, if_neg h10, if_neg h12, if_neg h13, if_neg h11]
  refine ⟨hstep, fun k => loopTrace_of_error _ cl parent ca.code k f _ hstep, ?_⟩
  exact ProcessInstruction_error_of_trace cl parent m ca args fuel n f _ hget hreach hn
    (index_lt _ _ _ hop) hstep

/-- Witness of C15: the code `04 00`, whose second byte (`nop`) is not
implemented, is reached after one step. -/
theorem C15_unimplemented_opcode_witness :
    step (ProcessInstruction sampleLoader 1) sampleLoader sampleClass
        (⟨1, 1, [0x04, 0x00], [], []⟩ : CodeAttribute).code ⟨1, [1], [], 0⟩
      = .error (.unimplementedInstruction 0) ∧
    (∀ k, loopTrace (ProcessInstruction sampleLoader 1) sampleLoader sampleClass
        (⟨1, 1, [0x04, 0x00], [], []⟩ : CodeAttribute).code k ⟨1, [1], [], 0⟩
      = [⟨1, [1], [], 0⟩]) ∧
    ProcessInstruction sampleLoader (1 + 1) sampleClass (some (methodWithCode [0x04, 0x00])) []
      = .error (.unimplementedInstruction 0) :=
  C15_unimplemented_opcode sampleLoader sampleClass (methodWithCode [0x04, 0x00])
    ⟨1, 1, [0x04, 0x00], [], []⟩ [] 1 1 ⟨1, [1], [], 0⟩ 0 (by decide) (by decide) (by decide)
    (by decide) (by decide)

/-- C16: when a run of `ProcessInstruction` comes to an `invokestatic` whose
method reference resolves to a class name that is not a key of the loader's
`loadedClasses`, the instruction and the step fail with the class-not-loaded
panic, no further frame is produced (no later instruction is executed), and
the run fails with that panic and returns no value.  The loader is an argument
that no step returns or changes. -/
theorem C16_class_not_found (cl : ClassLoader) (parent : ClassFile) (m : Method)
    (ca : CodeAttribute) (args : List Nat) (fuel n : Nat) (f : Frame) (idx : Nat)
    (c : Constant) (className methodName descriptor : GoString)
    (hget : m.GetCode parent = .ok ca)
    (hreach : f ∈ loopTrace (ProcessInstruction cl fuel) cl parent ca.code n ⟨0, [], args, 0⟩)
    (hn : n ≤ fuel)
    (hop : index ca.code f.pc = .ok 0xb8)
    (hidx : Uint16 (ca.code.drop (f.pc + 1)) = .ok idx)
    (hc : parent.getConstant idx = .ok c)
    (href : c.getMethodRef parent = .ok (className, methodName, descriptor))
    (hmiss : cl.loadedClasses.lookup className = none) :
    invokestatic_Op (ProcessInstruction cl fuel) cl parent ca.code f = .error .classNotLoaded ∧
    step (ProcessInstruction cl fuel) cl parent ca.code f = .error .classNotLoaded ∧
    (∀ k, loopTrace (ProcessInstruction cl fuel) cl parent ca.code k f = [f]) ∧
    ProcessInstruction cl (fuel + 1) parent (some m) args = .error .classNotLoaded := by
  have hfind : cl.FindClass className = .error .classNotLoaded := by
    unfold ClassLoader.FindClass
    rw [hmiss]
  have hinv : invokestatic_Op (ProcessInstruction cl fuel) cl parent ca.code f
      = .error .classNotLoaded := by
    unfold invokestatic_Op prepareInvoke
    rw [hidx]
    simp only [bind, Except.bind, hc, href, hfind]
  have hstep : step (ProcessInstruction cl fuel) cl parent ca.code f = .error .classNotLoaded := by
    rw [step_invokestatic _ cl parent ca.code f hop]
    exact hinv
  refine ⟨hinv, hstep, fun k => loopTrace_of_error _ cl parent ca.code k f _ hstep, ?_⟩
  exact ProcessInstruction_error_of_trace cl parent m ca args fuel n f _ hget hreach hn
    (index_lt _ _ _ hop) hstep

/-- Witness of C16: `iconst_1; invokestatic A.f; ireturn` in `sampleClass`, run
with a loader in which no class is registered. -/
theorem C16_class_not_found_witness :
    invokestatic_Op (ProcessInstruction ⟨[]⟩ 1) ⟨[]⟩ sampleClass
        (⟨1, 1, [0x04, 0xb8, 0, 6, 0xac], [], []⟩ : CodeAttribute).code ⟨1, [1], [], 0⟩
      = .error .classNotLoaded ∧
    step (ProcessInstruction ⟨[]⟩ 1) ⟨[]⟩ sampleClass
        (⟨1, 1, [0x04, 0xb8, 0, 6, 0xac], [], []⟩ : CodeAttribute).code ⟨1, [1], [], 0⟩
      = .error .classNotLoaded ∧
    (∀ k, loopTrace (ProcessInstruction ⟨[]⟩ 1) ⟨[]⟩ sampleClass
        (⟨1, 1, [0x04, 0xb8, 0, 6, 0xac], [], []⟩ : CodeAttribute).code k ⟨1, [1], [], 0⟩
      = [⟨1, [1], [], 0⟩]) ∧
    ProcessInstruction ⟨[]⟩ (1 + 1) sampleClass
        (some (methodWithCode [0x04, 0xb8, 0, 6, 0xac])) []
      = .error .classNotLoaded :=
  C16_class_not_found ⟨[]⟩ sampleClass (methodWithCode [0x04, 0xb8, 0, 6, 0xac])
    ⟨1, 1, [0x04, 0xb8, 0, 6, 0xac], [], []⟩ [] 1 1 ⟨1, [1], [], 0⟩ 6 ⟨10, [0, 2, 0, 5]⟩
    [65] [102] [40, 73, 41, 73] (by decide) (by decide) (by decide) (by decide) (by decide)
    (by decide) (by decide) (by decide)

theorem runLoop_succ_ok (call : ClassFile → Option Method → List Nat → Except Fault Nat)
    (cl : ClassLoader) (self : ClassFile) (code : List Nat) (n : Nat) (f next : Frame)
    (hpc : f.pc < code.length) (hstep : step call cl self code f = .ok next) :
    runLoop call cl self code (n + 1) f = runLoop call cl self code n next := by
  rw [runLoop, if_pos hpc, hstep]
  rfl

theorem runLoop_done (call : ClassFile → Option Method → List Nat → Except Fault Nat)
    (cl : ClassLoader) (self : ClassFile) (code : List Nat) (n : Nat) (f : Frame)
    (hpc : ¬ f.pc < code.length) :
    runLoop call cl self code n f = .ok f := by
  cases n with
  | zero => rw [runLoop, if_neg hpc]
  | succ n => rw [runLoop, if_neg hpc]

/-- C17: a method whose code is `10 a 10 b 64 ac` (`bipush a; bipush b; isub;
ireturn`) with `a`, `b` below `0x80`, run with no arguments, returns
`(a - b) mod 2^32`, and one whose code is `04 10 b 68 ac` (`iconst_1;
bipush b; imul; ireturn`) returns `b`, for every budget of at least 4; so
`10 05 10 03 64 ac` returns 2 and `04 10 0a 68 ac` returns 10. -/
theorem C17_end_to_end (cl : ClassLoader) (parent : ClassFile) (m : Method)
    (ca : CodeAttribute) (k a b : Nat)
    (hget : m.GetCode parent = .ok ca) (ha : a < 0x80) (hb : b < 0x80) :
    (ca.code = [0x10, a, 0x10, b, 0x64, 0xac] →
      ∃ r : Nat, (r : Int) = ((a : Int) - (b : Int)) % 4294967296 ∧
        ProcessInstruction cl (k + 4) parent (some m) [] = .ok r) ∧
    (ca.code = [0x04, 0x10, b, 0x68, 0xac] →
      ProcessInstruction cl (k + 4) parent (some m) [] = .ok b) := by
  constructor
  · intro hbody
    refine ⟨sub32 a b, sub32_eq a b (by omega) (by omega), ?_⟩
    have s0 : ∀ c, step c cl parent [0x10, a, 0x10, b, 0x64, 0xac] ⟨0, [], [], 0⟩
        = .ok ⟨2, [a], [], 0⟩ := fun _ => rfl
    have s1 : ∀ c, step c cl parent [0x10, a, 0x10, b, 0x64, 0xac] ⟨2, [a], [], 0⟩
        = .ok ⟨4, [a, b], [], 0⟩ := fun _ => rfl
    have s2 : ∀ c, step c cl parent [0x10, a, 0x10, b, 0x64, 0xac] ⟨4, [a, b], [], 0⟩
        = .ok ⟨5, [sub32 a b], [], 0⟩ := fun _ => rfl
    have s3 : ∀ c, step c cl parent [0x10, a, 0x10, b, 0x64, 0xac] ⟨5, [sub32 a b], [], 0⟩
        = .ok ⟨6, [], [], sub32 a b⟩ := fun _ => rfl
    have hrun : ∀ c, runLoop c cl parent [0x10, a, 0x10, b, 0x64, 0xac] (k + 4)
        ⟨0, [], [], 0⟩ = .ok ⟨6, [], [], sub32 a b⟩ := by
      intro c
      rw [runLoop_succ_ok c cl parent _ (k + 3) _ _ (by simp) (s0 c),
        runLoop_succ_ok c cl parent _ (k + 2) _ _ (by simp) (s1 c),
        runLoop_succ_ok c cl parent _ (k + 1) _ _ (by simp) (s2 c),
        runLoop_succ_ok c cl parent _ k _ _ (by simp) (s3 c),
        runLoop_done c cl parent _ k _ (by simp)]
    show ProcessInstruction cl (k + 3 + 1) parent (some m) [] = .ok (sub32 a b)
    unfold ProcessInstruction
    simp only [hget, bind, Except.bind, hbody]
    rw [show k + 3 + 1 = k + 4 from rfl, hrun]
    rfl
  · intro hbody
    have hmul : mul32 1 b = b := by
      unfold mul32
      omega
    have s0 : ∀ c, step c cl parent [0x04, 0x10, b, 0x68, 0xac] ⟨0, [], [], 0⟩
        = .ok ⟨1, [1], [], 0⟩ := fun _ => rfl
    have s1 : ∀ c, step c cl parent [0x04, 0x10, b, 0x68, 0xac] ⟨1, [1], [], 0⟩
        = .ok ⟨3, [1, b], [], 0⟩ := fun _ => rfl
    have s2 : ∀ c, step c cl parent [0x04, 0x10, b, 0x68, 0xac] ⟨3, [1, b], [], 0⟩
        = .ok ⟨4, [mul32 1 b], [], 0⟩ := fun _ => rfl
    have s3 : ∀ c, step c cl parent [0x04, 0x10, b, 0x68, 0xac] ⟨4, [mul32 1 b], [], 0⟩
        = .ok ⟨5, [], [], mul32 1 b⟩ := fun _ => rfl
    have hrun : ∀ c, runLoop c cl parent [0x04, 0x10, b, 0x68, 0xac] (k + 4)
        ⟨0, [], [], 0⟩ = .ok ⟨5, [], [], mul32 1 b⟩ := by
      intro c
      rw [runLoop_succ_ok c cl parent _ (k + 3) _ _ (by simp) (s0 c),
        runLoop_succ_ok c cl parent _ (k + 2) _ _ (by simp) (s1 c),
        runLoop_succ_ok c cl parent _ (k + 1) _ _ (by simp) (s2 c),
        runLoop_succ_ok c cl parent _ k _ _ (by simp) (s3 c),
        runLoop_done c cl parent _ k _ (by simp)]
    show ProcessInstruction cl (k + 3 + 1) parent (some m) [] = .ok b
    unfold ProcessInstruction
    simp only [hget, bind, Except.bind, hbody]
    rw [show k + 3 + 1 = k + 4 from rfl, hrun]
    simp only [pure, Except.pure, hmul]

/-- Witness of C17: `bipush 5; bipush 3; isub; ireturn` returns 2 and
`iconst_1; bipush 10; imul; ireturn` returns 10. -/
theorem C17_end_to_end_witness :
    ProcessInstruction sampleLoader (0 + 4) sampleClass
        (some (methodWithCode [0x10, 5, 0x10, 3, 0x64, 0xac])) [] = .ok 2 ∧
    ProcessInstruction sampleLoader (0 + 4) sampleClass
        (some (methodWithCode [0x04, 0x10, 10, 0x68, 0xac])) [] = .ok 10 := by
  obtain ⟨r, hr, hrun⟩ := (C17_end_to_end sampleLoader sampleClass
    (methodWithCode [0x10, 5, 0x10, 3, 0x64, 0xac])
    ⟨1, 1, [0x10, 5, 0x10, 3, 0x64, 0xac], [], []⟩ 0 5 3 (by decide) (by decide)
    (by decide)).1 rfl
  have h2 : r = 2 := by
    have : (r : Int) = 2 := by rw [hr]; decide
    omega
  rw [h2] at hrun
  exact ⟨hrun,
    (C17_end_to_end sampleLoader sampleClass (methodWithCode [0x04, 0x10, 10, 0x68, 0xac])
      ⟨1, 1, [0x04, 0x10, 10, 0x68, 0xac], [], []⟩ 0 10 10 (by decide) (by decide)
      (by decide)).2 rfl⟩

/-! ## Progress of the program counter -/

theorem index_error {α : Type} (xs : List α) (i : Nat) (e : Fault)
    (h : index xs i = .error e) : e = .indexOutOfRange := by
  unfold index at h
  split at h
  · simp at h
  · simp only [Except.error.injEq] at h
    exact h.symm

theorem bipush_Op_spec (code : List Nat) (f : Frame) :
    (∀ g, bipush_Op code f = .ok g → g.pc = f.pc + 2) ∧
    (∀ e, bipush_Op code f = .error e → e = .indexOutOfRange) := by
  unfold bipush_Op
  cases h : index code (f.pc + 1) with
  | error e0 =>
    have := index_error _ _ _ h
    subst this
    simp [bind, Except.bind]
  | ok b =>
    simp only [bind, Except.bind, pure, Except.pure, Except.ok.injEq]
    constructor
    · intro g hg
      rw [← hg]
    · intro e he
      simp at he

theorem ldc_Op_spec (code : List Nat) (f : Frame) :
    (∀ g, ldc_Op code f = .ok g → g.pc = f.pc + 2) ∧
    (∀ e, ldc_Op code f = .error e → e = .indexOutOfRange) := by
  unfold ldc_Op
  cases h : index code (f.pc + 1) with
  | error e0 =>
    have := index_error _ _ _ h
    subst this
    simp [bind, Except.bind]
  | ok b =>
    simp only [bind, Except.bind, pure, Except.pure, Except.ok.injEq]
    constructor
    · intro g hg
      rw [← hg]
    · intro e he
      simp at he

theorem iload_0_Op_spec (code : List Nat) (f : Frame) :
    (∀ g, iload_0_Op code f = .ok g → g.pc = f.pc + 1) ∧
    (∀ e, iload_0_Op code f = .error e → e = .indexOutOfRange) := by
  unfold iload_0_Op
  cases h : index f.locals 0 with
  | error e0 =>
    have := index_error _ _ _ h
    subst this
    simp [bind, Except.bind]
  | ok b =>
    simp only [bind, Except.bind, pure, Except.pure, Except.ok.injEq]
    constructor
    · intro g hg
      rw [← hg]
    · intro e he
      simp at he

theorem iconst_1_Op_spec (code : List Nat) (f : Frame) :
    (∀ g, iconst_1_Op code f = .ok g → g.pc = f.pc + 1) ∧
    (∀ e, iconst_1_Op code f = .error e → e = .indexOutOfRange) := by
  unfold iconst_1_Op
  constructor
  · intro g hg
    simp only [Except.ok.injEq] at hg
    rw [← hg]
  · intro e he
    simp at he

theorem pop_Op_spec (code : List Nat) (f : Frame) :
    (∀ g, pop_Op code f = .ok g → g.pc = f.pc + 1) ∧
    (∀ e, pop_Op code f = .error e → e = .indexOutOfRange) := by
  unfold pop_Op
  split
  · simp
  · constructor
    · intro g hg
      simp only [Except.ok.injEq] at hg
      rw [← hg]
    · intro e he
      simp at he

theorem getstatic_Op_spec (code : List Nat) (f : Frame) :
    (∀ g, getstatic_Op code f = .ok g → g.pc = f.pc + 3) ∧
    (∀ e, getstatic_Op code f = .error e → e = .indexOutOfRange) := by
  unfold getstatic_Op
  cases h : Uint16 (code.drop (f.pc + 1)) with
  | error e0 =>
    have := Uint16_error _ _ h
    subst this
    simp [bind, Except.bind]
  | ok b =>
    simp only [bind, Except.bind, pure, Except.pure, Except.ok.injEq]
    constructor
    · intro g hg
      rw [← hg]
    · intro e he
      simp at he

theorem return_Op_spec (code : List Nat) (f : Frame) :
    (∀ g, return_Op code f = .ok g → g.pc = code.length) ∧
    (∀ e, return_Op code f = .error e → e = .indexOutOfRange) := by
  unfold return_Op
  constructor
  · intro g hg
    simp only [Except.ok.injEq] at hg
    rw [← hg]
  · intro e he
    simp at he

theorem ireturn_Op_spec (code : List Nat) (f : Frame) :
    (∀ g, ireturn_Op code f = .ok g → g.pc = code.length) ∧
    (∀ e, ireturn_Op code f = .error e → e = .indexOutOfRange) := by
  unfold ireturn_Op
  split
  · simp
  · cases h : index f.stack (f.stack.length - 1) with
    | error e0 =>
      have := index_error _ _ _ h
      subst this
      simp [bind, Except.bind]
    | ok b =>
      simp only [bind, Except.bind, pure, Except.pure, Except.ok.injEq]
      constructor
      · intro g hg
        rw [← hg]
      · intro e he
        simp at he

theorem isub_Op_spec (code : List Nat) (f : Frame) :
    (∀ g, isub_Op code f = .ok g → g.pc = f.pc + 1) ∧
    (∀ e, isub_Op code f = .error e → e = .indexOutOfRange) := by
  unfold isub_Op
  split
  · simp
  · cases h : index f.stack (f.stack.length - 1) with
    | error e0 =>
      have := index_error _ _ _ h
      subst this
      simp [bind, Except.bind]
    | ok b =>
      simp only [bind, Except.bind]
      split
      · simp
      · cases h2 : index f.stack (f.stack.length - 2) with
        | error e0 =>
          have := index_error _ _ _ h2
          subst this
          simp
        | ok a =>
          simp only [pure, Except.pure, Except.ok.injEq]
          constructor
          · intro g hg
            rw [← hg]
          · intro e he
            simp at he

theorem imul_Op_spec (code : List Nat) (f : Frame) :
    (∀ g, imul_Op code f = .ok g → g.pc = f.pc + 1) ∧
    (∀ e, imul_Op code f = .error e → e = .indexOutOfRange) := by
  unfold imul_Op
  split
  · simp
  · cases h : index f.stack (f.stack.length - 1) with
    | error e0 =>
      have := index_error _ _ _ h
      subst this
      simp [bind, Except.bind]
    | ok b =>
      simp only [bind, Except.bind]
      split
      · simp
      · cases h2 : index f.stack (f.stack.length - 2) with
        | error e0 =>
          have := index_error _ _ _ h2
          subst this
          simp
        | ok a =>
          simp only [pure, Except.pure, Except.ok.injEq]
          constructor
          · intro g hg
            rw [← hg]
          · intro e he
            simp at he

theorem Uint16_ok (b : List Nat) (v : Nat) (h : Uint16 b = .ok v) :
    ∃ hi lo rest, b = hi :: lo :: rest ∧ v = hi * 256 + lo := by
  unfold Uint16 at h
  split at h
  · rename_i hi lo rest
    simp only [Except.ok.injEq] at h
    exact ⟨hi, lo, rest, rfl, h.symm⟩
  · simp at h

theorem goto_Op_spec (code : List Nat) (f : Frame) :
    (∀ g, goto_Op code f = .ok g →
      ∃ hi lo rest, code.drop (f.pc + 1) = hi :: lo :: rest ∧ g.pc = f.pc + (hi * 256 + lo)) ∧
    (∀ e, goto_Op code f = .error e → e = .indexOutOfRange) := by
  unfold goto_Op
  cases h : Uint16 (code.drop (f.pc + 1)) with
  | error e0 =>
    have := Uint16_error _ _ h
    subst this
    simp [bind, Except.bind]
  | ok v =>
    obtain ⟨hi, lo, rest, hd, hv⟩ := Uint16_ok _ _ h
    simp only [bind, Except.bind, pure, Except.pure, Except.ok.injEq]
    constructor
    · intro g hg
      refine ⟨hi, lo, rest, hd, ?_⟩
      rw [← hg, hv]
    · intro e he
      simp at he

theorem if_icmpne_Op_spec (code : List Nat) (f : Frame) :
    (∀ g, if_icmpne_Op code f = .ok g →
      g.pc = f.pc + 3 ∨
      ∃ hi lo rest v1 v2, code.drop (f.pc + 1) = hi :: lo :: rest ∧
        g.pc = f.pc + (hi * 256 + lo) ∧
        index f.stack (f.stack.length - 2) = .ok v1 ∧
        index f.stack (f.stack.length - 1) = .ok v2 ∧ v1 ≠ v2) ∧
    (∀ e, if_icmpne_Op code f = .error e → e = .indexOutOfRange) := by
  unfold if_icmpne_Op
  cases h : Uint16 (code.drop (f.pc + 1)) with
  | error e0 =>
    have := Uint16_error _ _ h
    subst this
    simp [bind, Except.bind]
  | ok v =>
    obtain ⟨hi, lo, rest, hd, hv⟩ := Uint16_ok _ _ h
    simp only [bind, Except.bind]
    split
    · simp
    · cases h1 : index f.stack (f.stack.length - 1) with
      | error e0 =>
        have := index_error _ _ _ h1
        subst this
        simp
      | ok v2 =>
        simp only
        split
        · simp
        · cases h2 : index f.stack (f.stack.length - 2) with
          | error e0 =>
            have := index_error _ _ _ h2
            subst this
            simp
          | ok v1 =>
            simp only
            by_cases hv12 : v1 = v2
            · simp only [hv12, ne_eq, not_true_eq_false, if_false, pure, Except.pure,
                Except.ok.injEq]
              constructor
              · intro g hg
                left
                rw [← hg]
              · intro e he
                simp at he
            · simp only [ne_eq, hv12, not_false_eq_true, if_true, pure, Except.pure,
                Except.ok.injEq]
              constructor
              · intro g hg
                right
                refine ⟨hi, lo, rest, v1, v2, hd, ?_, rfl, rfl, hv12⟩
                rw [← hg, hv]
              · intro e he
                simp at he

theorem invokestatic_Op_pc (call : ClassFile → Option Method → List Nat → Except Fault Nat)
    (cl : ClassLoader) (self : ClassFile) (code : List Nat) (f g : Frame)
    (h : invokestatic_Op call cl self code f = .ok g) : g.pc = f.pc + 3 := by
  unfold invokestatic_Op at h
  cases hp : prepareInvoke cl self code f with
  | error e => rw [hp] at h; simp [bind, Except.bind] at h
  | ok inv =>
    rw [hp] at h
    simp only [bind, Except.bind] at h
    cases hc : call inv.target inv.method inv.args with
    | error e => rw [hc] at h; simp at h
    | ok r =>
      rw [hc] at h
      simp only at h
      split at h <;> simp only [pure, Except.pure, Except.ok.injEq] at h <;> rw [← h]

/-- The `switch` of the loop, once the opcode is known. -/
theorem step_of_opcode (call : ClassFile → Option Method → List Nat → Except Fault Nat)
    (cl : ClassLoader) (self : ClassFile) (code : List Nat) (f : Frame) (op : Nat)
    (h : index code f.pc = .ok op) :
    step call cl self code f =
      if op = 0x04 then iconst_1_Op code f
      else if op = 0x10 then bipush_Op code f
      else if op = 0x1a then iload_0_Op code f
      else if op = 0x57 then pop_Op code f
      else if op = 0x12 then ldc_Op code f
      else if op = 0x64 then isub_Op code f
      else if op = 0x68 then imul_Op code f
      else if op = 0xa0 then if_icmpne_Op code f
      else if op = 0xa7 then goto_Op code f
      else if op = 0xac then ireturn_Op code f
      else if op = 0xb2 then getstatic_Op code f
      else if op = 0xb8 then invokestatic_Op call cl self code f
      else if op = 0xb1 then return_Op code f
      else .error (.unimplementedInstruction op) := by
  unfold step
  rw [h]
  rfl

/-- Case analysis on the `switch` of the loop. -/
theorem step_cases (call : ClassFile → Option Method → List Nat → Except Fault Nat)
    (cl : ClassLoader) (self : ClassFile) (code : List Nat) (f : Frame) (op : Nat)
    (P : Except Fault Frame → Prop)
    (hop : index code f.pc = .ok op)
    (c1 : op = 0x04 → P (iconst_1_Op code f))
    (c2 : op = 0x10 → P (bipush_Op code f))
    (c3 : op = 0x1a → P (iload_0_Op code f))
    (c4 : op = 0x57 → P (pop_Op code f))
    (c5 : op = 0x12 → P (ldc_Op code f))
    (c6 : op = 0x64 → P (isub_Op code f))
    (c7 : op = 0x68 → P (imul_Op code f))
    (c8 : op = 0xa0 → P (if_icmpne_Op code f))
    (c9 : op = 0xa7 → P (goto_Op code f))
    (c10 : op = 0xac → P (ireturn_Op code f))
    (c11 : op = 0xb2 → P (getstatic_Op code f))
    (c12 : op = 0xb8 → P (invokestatic_Op call cl self code f))
    (c13 : op = 0xb1 → P (return_Op code f))
    (c14 : P (.error (.unimplementedInstruction op))) :
    P (step call cl self code f) := by
  rw [step_of_opcode call cl self code f op hop]
  by_cases h1 : op = 0x04
  · rw [if_pos h1]; exact c1 h1
  rw [if_neg h1]
  by_cases h2 : op = 0x10
  · rw [if_pos h2]; exact c2 h2
  rw [if_neg h2]
  by_cases h3 : op = 0x1a
  · rw [if_pos h3]; exact c3 h3
  rw [if_neg h3]
  by_cases h4 : op = 0x57
  · rw [if_pos h4]; exact c4 h4
  rw [if_neg h4]
  by_cases h5 : op = 0x12
  · rw [if_pos h5]; exact c5 h5
  rw [if_neg h5]
  by_cases h6 : op = 0x64
  · rw [if_pos h6]; exact c6 h6
  rw [if_neg h6]
  by_cases h7 : op = 0x68
  · rw [if_pos h7]; exact c7 h7
  rw [if_neg h7]
  by_cases h8 : op = 0xa0
  · rw [if_pos h8]; exact c8 h8
  rw [if_neg h8]
  by_cases h9 : op = 0xa7
  · rw [if_pos h9]; exact c9 h9
  rw [if_neg h9]
  by_cases h10 : op = 0xac
  · rw [if_pos h10]; exact c10 h10
  rw [if_neg h10]
  by_cases h11 : op = 0xb2
  · rw [if_pos h11]; exact c11 h11
  rw [if_neg h11]
  by_cases h12 : op = 0xb8
  · rw [if_pos h12]; exact c12 h12
  rw [if_neg h12]
  by_cases h13 : op = 0xb1
  · rw [if_pos h13]; exact c13 h13
  rw [if_neg h13]
  exact c14

/-- A successful step is taken inside the code and never moves `pc` back; it
leaves `pc` where it was only as a `goto`, or a taken `if_icmpne`, whose
offset bytes are both zero. -/
theorem step_progress (call : ClassFile → Option Method → List Nat → Except Fault Nat)
    (cl : ClassLoader) (self : ClassFile) (code : List Nat) (f g : Frame)
    (h : step call cl self code f = .ok g) :
    f.pc < code.length ∧
    (f.pc < g.pc ∨
      (g.pc = f.pc ∧
        (index code f.pc = .ok 0xa7 ∨
          (index code f.pc = .ok 0xa0 ∧
            ∃ v1 v2, index f.stack (f.stack.length - 2) = .ok v1 ∧
              index f.stack (f.stack.length - 1) = .ok v2 ∧ v1 ≠ v2)) ∧
        ∃ rest, code.drop (f.pc + 1) = 0 :: 0 :: rest)) := by
  cases hop : index code f.pc with
  | error e =>
    unfold step at h
    rw [hop] at h
    exact absurd h (by simp [bind, Except.bind])
  | ok op =>
    have hlt : f.pc < code.length := index_lt _ _ _ hop
    refine ⟨hlt, ?_⟩
    revert h
    refine step_cases call cl self code f op
      (fun r => r = .ok g → (f.pc < g.pc ∨
        (g.pc = f.pc ∧
          (Except.ok op = (.ok 0xa7 : Except Fault Nat) ∨
            (Except.ok op = (.ok 0xa0 : Except Fault Nat) ∧
              ∃ v1 v2, index f.stack (f.stack.length - 2) = .ok v1 ∧
                index f.stack (f.stack.length - 1) = .ok v2 ∧ v1 ≠ v2)) ∧
          ∃ rest, code.drop (f.pc + 1) = 0 :: 0 :: rest)))
      hop ?_ ?_ ?_ ?_ ?_ ?_ ?_ ?_ ?_ ?_ ?_ ?_ ?_ ?_
    · intro _ h
      have := (iconst_1_Op_spec code f).1 g h
      left; omega
    · intro _ h
      have := (bipush_Op_spec code f).1 g h
      left; omega
    · intro _ h
      have := (iload_0_Op_spec code f).1 g h
      left; omega
    · intro _ h
      have := (pop_Op_spec code f).1 g h
      left; omega
    · intro _ h
      have := (ldc_Op_spec code f).1 g h
      left; omega
    · intro _ h
      have := (isub_Op_spec code f).1 g h
      left; omega
    · intro _ h
      have := (imul_Op_spec code f).1 g h
      left; omega
    · intro h8 h
      rcases (if_icmpne_Op_spec code f).1 g h with
        hg | ⟨hi, lo, rest, v1, v2, hd, hg, hv1, hv2, hne⟩
      · left; omega
      · by_cases hz : hi * 256 + lo = 0
        · right
          have hhi : hi = 0 := by omega
          have hlo : lo = 0 := by omega
          subst hhi hlo
          exact ⟨by omega, Or.inr ⟨by rw [h8], v1, v2, hv1, hv2, hne⟩, rest, hd⟩
        · left; omega
    · intro h9 h
      obtain ⟨hi, lo, rest, hd, hg⟩ := (goto_Op_spec code f).1 g h
      by_cases hz : hi * 256 + lo = 0
      · right
        have hhi : hi = 0 := by omega
        have hlo : lo = 0 := by omega
        subst hhi hlo
        exact ⟨by omega, Or.inl (by rw [h9]), rest, hd⟩
      · left; omega
    · intro _ h
      have := (ireturn_Op_spec code f).1 g h
      left; omega
    · intro _ h
      have := (getstatic_Op_spec code f).1 g h
      left; omega
    · intro _ h
      have := invokestatic_Op_pc call cl self code f g h
      left; omega
    · intro _ h
      have := (return_Op_spec code f).1 g h
      left; omega
    · intro h
      exact absurd h (by simp)

/-- A step that fails at an opcode other than `invokestatic` fails with a
panic of the interpreter itself. -/
theorem step_error (call : ClassFile → Option Method → List Nat → Except Fault Nat)
    (cl : ClassLoader) (self : ClassFile) (code : List Nat) (f : Frame) (e : Fault)
    (h : step call cl self code f = .error e) (hno : index code f.pc ≠ .ok 0xb8) :
    e = .indexOutOfRange ∨ ∃ op, e = .unimplementedInstruction op := by
  cases hop : index code f.pc with
  | error e0 =>
    unfold step at h
    rw [hop] at h
    have h2 : (Except.error e0 : Except Fault Frame) = .error e := h
    simp only [Except.error.injEq] at h2
    left
    rw [← h2]
    exact index_error _ _ _ hop
  | ok op =>
    rw [hop] at hno
    revert h
    refine step_cases call cl self code f op
      (fun r => r = .error e → (e = .indexOutOfRange ∨ ∃ op, e = .unimplementedInstruction op))
      hop ?_ ?_ ?_ ?_ ?_ ?_ ?_ ?_ ?_ ?_ ?_ ?_ ?_ ?_
    · exact fun _ h => Or.inl ((iconst_1_Op_spec code f).2 e h)
    · exact fun _ h => Or.inl ((bipush_Op_spec code f).2 e h)
    · exact fun _ h => Or.inl ((iload_0_Op_spec code f).2 e h)
    · exact fun _ h => Or.inl ((pop_Op_spec code f).2 e h)
    · exact fun _ h => Or.inl ((ldc_Op_spec code f).2 e h)
    · exact fun _ h => Or.inl ((isub_Op_spec code f).2 e h)
    · exact fun _ h => Or.inl ((imul_Op_spec code f).2 e h)
    · exact fun _ h => Or.inl ((if_icmpne_Op_spec code f).2 e h)
    · exact fun _ h => Or.inl ((goto_Op_spec code f).2 e h)
    · exact fun _ h => Or.inl ((ireturn_Op_spec code f).2 e h)
    · exact fun _ h => Or.inl ((getstatic_Op_spec code f).2 e h)
    · exact fun h12 _ => absurd (by rw [h12]) hno
    · exact fun _ h => Or.inl ((return_Op_spec code f).2 e h)
    · intro h
      simp only [Except.error.injEq] at h
      exact Or.inr ⟨op, h.symm⟩

theorem loopTrace_head (call : ClassFile → Option Method → List Nat → Except Fault Nat)
    (cl : ClassLoader) (self : ClassFile) (code : List Nat) (n : Nat) (f : Frame) :
    f ∈ loopTrace call cl self code n f := by
  cases n with
  | zero => simp [loopTrace]
  | succ n =>
    rw [loopTrace]
    split
    · split <;> simp
    · simp

theorem loopTrace_succ_ok (call : ClassFile → Option Method → List Nat → Except Fault Nat)
    (cl : ClassLoader) (self : ClassFile) (code : List Nat) (n : Nat) (f next : Frame)
    (hpc : f.pc < code.length) (hstep : step call cl self code f = .ok next) :
    loopTrace call cl self code (n + 1) f = f :: loopTrace call cl self code n next := by
  rw [loopTrace, if_pos hpc, hstep]

theorem loopTrace_done (call : ClassFile → Option Method → List Nat → Except Fault Nat)
    (cl : ClassLoader) (self : ClassFile) (code : List Nat) (n : Nat) (f : Frame)
    (hpc : ¬ f.pc < code.length) :
    loopTrace call cl self code n f = [f] := by
  cases n with
  | zero => rfl
  | succ n => rw [loopTrace, if_neg hpc]

/-- Under the two conditions on the frames of the run, a successful step moves
`pc` forward. -/
theorem step_forward (call : ClassFile → Option Method → List Nat → Except Fault Nat)
    (cl : ClassLoader) (self : ClassFile) (code : List Nat) (f g : Frame)
    (h : step call cl self code f = .ok g)
    (hbr : (index code f.pc = .ok 0xa7 ∨ index code f.pc = .ok 0xa0) →
      Uint16 (code.drop (f.pc + 1)) ≠ .ok 0) :
    f.pc < g.pc := by
  rcases (step_progress call cl self code f g h).2 with hlt | ⟨_, hop, rest, hd⟩
  · exact hlt
  · exfalso
    refine hbr ?_ (by rw [hd]; rfl)
    rcases hop with h1 | ⟨h2, _⟩
    · exact Or.inl h1
    · exact Or.inr h2

/-- With no `invokestatic` and no branch of offset zero among the frames of
the run, the loop is left, or fails in a step, within `len(code) - pc`
turns. -/
theorem runLoop_halts (call : ClassFile → Option Method → List Nat → Except Fault Nat)
    (cl : ClassLoader) (self : ClassFile) (code : List Nat) (n : Nat) (f : Frame)
    (hn : code.length - f.pc ≤ n)
    (hyp : ∀ g ∈ loopTrace call cl self code n f,
      index code g.pc ≠ .ok 0xb8 ∧
      ((index code g.pc = .ok 0xa7 ∨ index code g.pc = .ok 0xa0) →
        Uint16 (code.drop (g.pc + 1)) ≠ .ok 0)) :
    (∃ r, runLoop call cl self code n f = .ok r) ∨
    (∃ e, runLoop call cl self code n f = .error e ∧ e ≠ .outOfFuel) := by
  induction n generalizing f with
  | zero =>
    left
    exact ⟨f, runLoop_done call cl self code 0 f (by omega)⟩
  | succ n ih =>
    by_cases hpc : f.pc < code.length
    · have hf := hyp f (loopTrace_head call cl self code (n + 1) f)
      cases hs : step call cl self code f with
      | error e =>
        right
        refine ⟨e, ?_, ?_⟩
        · rw [runLoop, if_pos hpc, hs]
          rfl
        · rcases step_error call cl self code f e hs hf.1 with h1 | ⟨op, h2⟩
          · rw [h1]; simp
          · rw [h2]; simp
      | ok next =>
        rw [runLoop_succ_ok call cl self code n f next hpc hs]
        have hfw := step_forward call cl self code f next hs hf.2
        refine ih next (by omega) ?_
        intro g hg
        refine hyp g ?_
        rw [loopTrace_succ_ok call cl self code n f next hpc hs]
        exact List.mem_cons_of_mem _ hg
    · left
      exact ⟨f, runLoop_done call cl self code (n + 1) f hpc⟩

/-- Under the same conditions the run executes at most `len(code) - pc`
instructions. -/
theorem loopTrace_count (call : ClassFile → Option Method → List Nat → Except Fault Nat)
    (cl : ClassLoader) (self : ClassFile) (code : List Nat) (n : Nat) (f : Frame)
    (hyp : ∀ g ∈ loopTrace call cl self code n f,
      index code g.pc ≠ .ok 0xb8 ∧
      ((index code g.pc = .ok 0xa7 ∨ index code g.pc = .ok 0xa0) →
        Uint16 (code.drop (g.pc + 1)) ≠ .ok 0)) :
    ((loopTrace call cl self code n f).filter (fun g => decide (g.pc < code.length))).length
      ≤ code.length - f.pc := by
  induction n generalizing f with
  | zero =>
    simp only [loopTrace]
    by_cases hpc : f.pc < code.length
    · simp [List.filter, hpc]; omega
    · simp [List.filter, hpc]
  | succ n ih =>
    by_cases hpc : f.pc < code.length
    · have hf := hyp f (loopTrace_head call cl self code (n + 1) f)
      cases hs : step call cl self code f with
      | error e =>
        rw [loopTrace, if_pos hpc, hs]
        simp [List.filter, hpc]; omega
      | ok next =>
        have hfw := step_forward call cl self code f next hs hf.2
        have hrec := ih next (by
          intro g hg
          refine hyp g ?_
          rw [loopTrace_succ_ok call cl self code n f next hpc hs]
          exact List.mem_cons_of_mem _ hg)
        rw [loopTrace_succ_ok call cl self code n f next hpc hs]
        simp only [List.filter, hpc, decide_True, List.length_cons]
        omega
    · rw [loopTrace_done call cl self code (n + 1) f hpc]
      simp [List.filter, hpc]

/-- A `goto` of offset zero leaves the frame as it is, and the loop goes on
for every budget. -/
theorem goto_zero_loops (call : ClassFile → Option Method → List Nat → Except Fault Nat)
    (cl : ClassLoader) (self : ClassFile) (code : List Nat) (f : Frame) (rest : List Nat)
    (hcode : code.drop f.pc = 0xa7 :: 0 :: 0 :: rest) :
    step call cl self code f = .ok f ∧
    ∀ n, runLoop call cl self code n f = .error .outOfFuel := by
  have hop : index code f.pc = .ok 0xa7 := index_of_drop code f.pc _ _ hcode
  have hoff : code.drop (f.pc + 1) = 0 :: 0 :: rest := drop_succ_of_drop code f.pc _ _ hcode
  have hstep : step call cl self code f = .ok f := by
    rw [step_goto call cl self code f hop]
    unfold goto_Op
    rw [hoff]
    rfl
  refine ⟨hstep, ?_⟩
  have hpc : f.pc < code.length := index_lt _ _ _ hop
  intro n
  induction n with
  | zero => rw [runLoop, if_pos hpc]
  | succ n ih => rw [runLoop_succ_ok call cl self code n f f hpc hstep, ih]

/-! ## Decoding the Code attribute -/

theorem readU16_encode (n : Nat) (rest : List Nat) :
    readU16 (encodeU16 n ++ rest) = (n, rest) := by
  simp only [encodeU16, List.cons_append, List.nil_append, readU16, Prod.mk.injEq, and_true]
  omega

theorem readU32_encode (n : Nat) (rest : List Nat) :
    readU32 (encodeU32 n ++ rest) = (n, rest) := by
  simp only [encodeU32, List.cons_append, List.nil_append, readU32, Prod.mk.injEq, and_true]
  omega

theorem readAttribute_encode (a : Attribute) (rest : List Nat) :
    readAttribute (encodeAttribute a ++ rest) = (a, rest) := by
  unfold readAttribute encodeAttribute
  simp only [List.append_assoc, readU16_encode, readU32_encode, readBytes_append]

theorem readAttributes_encode (attrs : List Attribute) (rest : List Nat) :
    readAttributes attrs.length (encodeAttributes attrs ++ rest) = (attrs, rest) := by
  induction attrs with
  | nil => rfl
  | cons a tl ih =>
    simp only [List.length_cons, readAttributes, encodeAttributes, List.append_assoc,
      readAttribute_encode, ih]

/-- A `Code` attribute without exception rows is decoded to the values its
payload encodes. -/
theorem toCodeAttribute_decodes (parent : ClassFile) (a : Attribute)
    (maxStack maxLocals : Nat) (code : List Nat) (attrs : List Attribute)
    (hname : parent.getString a.attributeNameIndex = .ok strCode)
    (hdata : a.data = encodeU16 maxStack ++ (encodeU16 maxLocals ++ (encodeU32 code.length ++
      (code ++ (encodeU16 0 ++ (encodeU16 attrs.length ++ encodeAttributes attrs)))))) :
    a.toCodeAttribute parent = .ok ⟨maxStack, maxLocals, code, [], attrs⟩ := by
  have hattrs := readAttributes_encode attrs []
  rw [List.append_nil] at hattrs
  unfold Attribute.toCodeAttribute
  rw [hname, hdata]
  simp only [bind, Except.bind, ne_eq, not_true_eq_false, if_false, readU16_encode,
    readU32_encode, readBytes_append, readExceptionTables, if_true, hattrs, pure, Except.pure]

/-- A `Code` attribute whose exception rows are all there makes the decoder
panic as soon as there is one row. -/
theorem toCodeAttribute_rows_panic (parent : ClassFile) (a : Attribute)
    (maxStack maxLocals : Nat) (code : List Nat) (E : Nat) (rows tail : List Nat)
    (hname : parent.getString a.attributeNameIndex = .ok strCode)
    (hE : 1 ≤ E) (hrows : rows.length = 8 * E)
    (hdata : a.data = encodeU16 maxStack ++ (encodeU16 maxLocals ++ (encodeU32 code.length ++
      (code ++ (encodeU16 E ++ (rows ++ tail)))))) :
    a.toCodeAttribute parent = .error .reflectUnexportedField := by
  have hne : ¬ E = 0 := by omega
  have hle : 8 * E ≤ (rows ++ tail).length := by
    rw [List.length_append]
    omega
  unfold Attribute.toCodeAttribute
  rw [hname, hdata]
  simp only [bind, Except.bind, ne_eq, not_true_eq_false, if_false, readU16_encode,
    readU32_encode, readBytes_append, readExceptionTables, hne, hle, if_true]

/-- An attribute whose name is not `Code` is not decoded. -/
theorem toCodeAttribute_other_name (parent : ClassFile) (a : Attribute) (name : GoString)
    (hname : parent.getString a.attributeNameIndex = .ok name) (hne : name ≠ strCode) :
    a.toCodeAttribute parent = .error .notCodeAttribute := by
  unfold Attribute.toCodeAttribute
  rw [hname]
  simp only [bind, Except.bind, ne_eq, hne, not_false_eq_true, if_true]

/-- C18: `toCodeAttribute` does not return the exception rows.  On the `Code`
attribute `codeWithHandler`, whose payload encodes max-stack 1, max-locals 1,
the code `b1`, one exception row (0, 1, 0, 0) and no nested attribute, it
panics while decoding the row; the same payload without the row is decoded to
the encoded values, and an attribute named `A` is rejected. -/
theorem C18_exception_rows_panic :
    codeWithHandler.data = encodeU16 1 ++ (encodeU16 1 ++ (encodeU32 1 ++ ([0xb1] ++
      (encodeU16 1 ++ ((encodeU16 0 ++ encodeU16 1 ++ encodeU16 0 ++ encodeU16 0) ++
        encodeU16 0))))) ∧
    sampleClass.getString codeWithHandler.attributeNameIndex = .ok strCode ∧
    codeWithHandler.toCodeAttribute sampleClass = .error .reflectUnexportedField ∧
    (⟨7, encodeU16 1 ++ (encodeU16 1 ++ (encodeU32 1 ++ ([0xb1] ++
        (encodeU16 0 ++ encodeU16 0))))⟩ : Attribute).toCodeAttribute sampleClass
      = .ok ⟨1, 1, [0xb1], [], []⟩ ∧
    (⟨1, codeWithHandler.data⟩ : Attribute).toCodeAttribute sampleClass
      = .error .notCodeAttribute := by
  decide

/-- The scan of `getAttribute` over attributes none of which has the name. -/
theorem getAttributeFrom_none (parent : ClassFile) (tag : GoString) (as : List Attribute)
    (hwf : ∀ a ∈ as, ∃ n, parent.getString a.attributeNameIndex = .ok n)
    (hno : ∀ a ∈ as, parent.getString a.attributeNameIndex ≠ .ok tag) :
    getAttributeFrom parent tag as = .error .attributeNotFound := by
  induction as with
  | nil => rfl
  | cons a rest ih =>
    obtain ⟨n, hn⟩ := hwf a (List.mem_cons_self _ _)
    have ih2 := ih (fun x hx => hwf x (List.mem_cons_of_mem _ hx))
      (fun x hx => hno x (List.mem_cons_of_mem _ hx))
    have e : ¬ n = tag := fun e => hno a (List.mem_cons_self _ _) (by rw [hn, e])
    rw [getAttributeFrom, hn]
    simp only [bind, Except.bind]
    rw [if_neg e, ih2]

/-- The scan of `getAttribute` stops at the first attribute of that name. -/
theorem getAttributeFrom_first (parent : ClassFile) (tag : GoString)
    (pre : List Attribute) (a : Attribute) (post : List Attribute)
    (hwf : ∀ x ∈ pre, ∃ n, parent.getString x.attributeNameIndex = .ok n)
    (hno : ∀ x ∈ pre, parent.getString x.attributeNameIndex ≠ .ok tag)
    (ha : parent.getString a.attributeNameIndex = .ok tag) :
    getAttributeFrom parent tag (pre ++ a :: post) = .ok a := by
  induction pre with
  | nil => simp [getAttributeFrom, ha, bind, Except.bind, pure, Except.pure]
  | cons x rest ih =>
    obtain ⟨n, hn⟩ := hwf x (List.mem_cons_self _ _)
    have ih2 := ih (fun y hy => hwf y (List.mem_cons_of_mem _ hy))
      (fun y hy => hno y (List.mem_cons_of_mem _ hy))
    have e : ¬ n = tag := fun e => hno x (List.mem_cons_self _ _) (by rw [hn, e])
    rw [List.cons_append, getAttributeFrom, hn]
    simp only [bind, Except.bind]
    rw [if_neg e, ih2]

/-- C19, as stated, fails.  The second attribute of `danglingAttrMethod` is
named `Code`, yet `getAttribute` does not return it: it panics on the first
attribute, whose name index is 0.  No attribute of `classNamedAttrMethod` has
the name `Code`, yet `getAttribute` fails with the not-a-UTF-8 panic and not
with the attribute-not-found one. -/
theorem C19_getAttribute_dangling :
    danglingAttrMethod.attributes = [⟨0, []⟩, ⟨7, codePayload [0xb1]⟩] ∧
    sampleClass.getString 7 = .ok strCode ∧
    danglingAttrMethod.getAttribute sampleClass strCode = .error .indexOutOfRange ∧
    (∀ a ∈ classNamedAttrMethod.attributes,
      sampleClass.getString a.attributeNameIndex ≠ .ok strCode) ∧
    classNamedAttrMethod.getAttribute sampleClass strCode = .error .notUtf8 := by
  decide

/-- C19, amended: for a method each of whose attributes has a name index that
points to a Utf8 entry, `getAttribute` fails with the attribute-not-found
panic when no attribute has the name `tag`, and returns the first attribute
of that name when there is one.  The miss is a panic, whereas the miss of
`FindMethod` is the result `nil`. -/
theorem C19_getAttribute (parent : ClassFile) (m : Method) (tag : GoString)
    (hwf : ∀ a ∈ m.attributes, ∃ n, parent.getString a.attributeNameIndex = .ok n) :
    ((∀ a ∈ m.attributes, parent.getString a.attributeNameIndex ≠ .ok tag) →
      m.getAttribute parent tag = .error .attributeNotFound) ∧
    (∀ pre a post, m.attributes = pre ++ a :: post →
      parent.getString a.attributeNameIndex = .ok tag →
      (∀ x ∈ pre, parent.getString x.attributeNameIndex ≠ .ok tag) →
      m.getAttribute parent tag = .ok a) ∧
    (∀ (cf : ClassFile) (name descriptor : GoString), cf.methods = [] →
      cf.FindMethod name descriptor = .ok none) := by
  refine ⟨?_, ?_, ?_⟩
  · intro hno
    exact getAttributeFrom_none parent tag m.attributes hwf hno
  · intro pre a post hsplit ha hno
    unfold Method.getAttribute
    rw [hsplit]
    refine getAttributeFrom_first parent tag pre a post ?_ hno ha
    intro x hx
    exact hwf x (by rw [hsplit]; exact List.mem_append_left _ hx)
  · intro cf name descriptor hnil
    unfold ClassFile.FindMethod
    rw [hnil]
    rfl

/-- Witness of C19, amended: the method `f` of `sampleClass` has the attribute
`Code` and no attribute named `f`. -/
theorem C19_getAttribute_witness :
    sampleF.getAttribute sampleClass [102] = .error .attributeNotFound ∧
    sampleF.getAttribute sampleClass strCode = .ok ⟨7, codePayload [0x1a, 0xac]⟩ :=
  ⟨(C19_getAttribute sampleClass sampleF [102]
      (by intro a ha
          simp only [sampleF, List.mem_singleton] at ha
          subst ha
          exact ⟨_, rfl⟩)).1 (by decide),
   (C19_getAttribute sampleClass sampleF strCode
      (by intro a ha
          simp only [sampleF, List.mem_singleton] at ha
          subst ha
          exact ⟨_, rfl⟩)).2.1 [] ⟨7, codePayload [0x1a, 0xac]⟩ [] rfl (by decide)
        (by decide)⟩

/-- C20: a successful step of the interpreter never decreases `pc`, and leaves
it unchanged only as a `goto`, or a taken `if_icmpne`, whose two offset bytes
are both zero (offsets are unsigned, so no jump goes back).  Hence, for a
method whose run meets no `invokestatic` and no branch of offset zero,
`ProcessInstruction` halts, with a value or with a panic, for every budget of
at least `len(code)`, having executed at most `len(code)` instructions.  A
`goto` of offset zero is a fixed point of the step: the frame is unchanged and
the loop does not end within any budget. -/
theorem C20_progress_and_termination
    (call : ClassFile → Option Method → List Nat → Except Fault Nat)
    (cl : ClassLoader) (parent : ClassFile) (code : List Nat) (m : Method)
    (ca : CodeAttribute) (args : List Nat) (fuel : Nat) :
    (∀ f g, step call cl parent code f = .ok g →
      f.pc ≤ g.pc ∧
      (g.pc = f.pc →
        (index code f.pc = .ok 0xa7 ∨
          (index code f.pc = .ok 0xa0 ∧
            ∃ v1 v2, index f.stack (f.stack.length - 2) = .ok v1 ∧
              index f.stack (f.stack.length - 1) = .ok v2 ∧ v1 ≠ v2)) ∧
        ∃ rest, code.drop (f.pc + 1) = 0 :: 0 :: rest)) ∧
    (m.GetCode parent = .ok ca → ca.code.length ≤ fuel + 1 →
      (∀ g ∈ loopTrace (ProcessInstruction cl fuel) cl parent ca.code (fuel + 1)
          ⟨0, [], args, 0⟩,
        index ca.code g.pc ≠ .ok 0xb8 ∧
        ((index ca.code g.pc = .ok 0xa7 ∨ index ca.code g.pc = .ok 0xa0) →
          Uint16 (ca.code.drop (g.pc + 1)) ≠ .ok 0)) →
      ((∃ v, ProcessInstruction cl (fuel + 1) parent (some m) args = .ok v) ∨
        (∃ e, ProcessInstruction cl (fuel + 1) parent (some m) args = .error e ∧
          e ≠ .outOfFuel)) ∧
      ((loopTrace (ProcessInstruction cl fuel) cl parent ca.code (fuel + 1)
          ⟨0, [], args, 0⟩).filter (fun g => decide (g.pc < ca.code.length))).length
        ≤ ca.code.length) ∧
    (∀ f rest, code.drop f.pc = 0xa7 :: 0 :: 0 :: rest →
      step call cl parent code f = .ok f ∧
      ∀ n, runLoop call cl parent code n f = .error .outOfFuel) := by
  refine ⟨?_, ?_, ?_⟩
  · intro f g h
    rcases (step_progress call cl parent code f g h).2 with hlt | ⟨heq, hop, hrest⟩
    · exact ⟨by omega, fun he => by omega⟩
    · exact ⟨by omega, fun _ => ⟨hop, hrest⟩⟩
  · intro hget hlen hyp
    constructor
    · have hrun := runLoop_halts (ProcessInstruction cl fuel) cl parent ca.code (fuel + 1)
        ⟨0, [], args, 0⟩ (by simpa using hlen) hyp
      rw [ProcessInstruction]
      simp only [hget, bind, Except.bind]
      rcases hrun with ⟨r, hr⟩ | ⟨e, he, hne⟩
      · left
        rw [hr]
        exact ⟨r.returnValue, rfl⟩
      · right
        rw [he]
        exact ⟨e, rfl, hne⟩
    · have := loopTrace_count (ProcessInstruction cl fuel) cl parent ca.code (fuel + 1)
        ⟨0, [], args, 0⟩ hyp
      simpa using this
  · intro f rest hcode
    exact goto_zero_loops call cl parent code f rest hcode

/-- Witness of C20: the method `h` of `sampleClass` (`bipush 7; goto +4;
iconst_1; ireturn`, seven bytes) with the budget 7, and the code `a7 00 00`. -/
theorem C20_progress_and_termination_witness :
    ((0 : Nat) ≤ 0 ∧
      (index [0xa7, 0, 0] 0 = .ok 0xa7 ∨
        (index [0xa7, 0, 0] 0 = .ok 0xa0 ∧
          ∃ v1 v2, index ([] : List Nat) (0 - 2) = .ok v1 ∧
            index ([] : List Nat) (0 - 1) = .ok v2 ∧ v1 ≠ v2)) ∧
      ∃ rest, List.drop (0 + 1) [0xa7, 0, 0] = 0 :: 0 :: rest) ∧
    ((∃ v, ProcessInstruction sampleLoader (6 + 1) sampleClass (some sampleH) [] = .ok v) ∨
      (∃ e, ProcessInstruction sampleLoader (6 + 1) sampleClass (some sampleH) [] = .error e ∧
        e ≠ .outOfFuel)) ∧
    ((loopTrace (ProcessInstruction sampleLoader 6) sampleLoader sampleClass
        [0x10, 0x07, 0xa7, 0x00, 0x04, 0x04, 0xac] (6 + 1) ⟨0, [], [], 0⟩).filter
        (fun g => decide (g.pc < 7))).length ≤ 7 ∧
    (step (fun _ _ _ => .ok 0) sampleLoader sampleClass [0xa7, 0, 0] ⟨0, [], [], 0⟩
        = .ok ⟨0, [], [], 0⟩ ∧
      ∀ n, runLoop (fun _ _ _ => .ok 0) sampleLoader sampleClass [0xa7, 0, 0] n ⟨0, [], [], 0⟩
        = .error .outOfFuel) := by
  have h := C20_progress_and_termination (fun _ _ _ => .ok 0) sampleLoader sampleClass
    [0xa7, 0, 0] sampleH ⟨1, 1, [0x10, 0x07, 0xa7, 0x00, 0x04, 0x04, 0xac], [], []⟩ [] 6
  have h1 := h.1 ⟨0, [], [], 0⟩ ⟨0, [], [], 0⟩ (by decide)
  have h2 := h.2.1 (by decide) (by decide) (by decide)
  have h3 := h.2.2 ⟨0, [], [], 0⟩ [] rfl
  exact ⟨⟨h1.1, h1.2 rfl⟩, h2.1, h2.2, h3⟩

end Javago
